import Mathlib

/-!
Shallow embedding of the PrivateDonationMatching Solidity contract
(contracts/PrivateDonationMatching.sol) together with proofs about its
round lifecycle, encrypted accounting and decrypt-grant discipline.

The FHE backend is modelled by an explicit store of ciphertext handles:
every homomorphic operation allocates a fresh handle holding the
corresponding 64-bit plaintext value (reduced modulo 2^64), and the
access-control list records the decrypt grants issued through FHE.allow
and FHE.allowThis. External encrypted inputs are modelled by their
plaintext values; proof verification by the cryptographic backend is an
external collaborator and is modelled as succeeding.
-/

namespace DonationMatching

/-!
Addresses and ciphertext handles are both modelled as plain natural
numbers. The zero handle is the uninitialized mapping default; freshly
allocated handles start at 1.
-/

/-- Modulus of the euint64 encrypted integers. -/
def M64 : Nat := 2 ^ 64

/-- The address of the contract itself, the target of FHE.allowThis. -/
def thisAddr : Nat := 0

/-- State of the FHE backend: the next fresh handle, the plaintext value
of every handle, and the decrypt-grant access-control list. -/
structure FheState where
  nextHandle : Nat
  val : Nat → Nat
  acl : Nat → Nat → Bool

/-- Allocate a fresh ciphertext handle holding value v (mod 2^64). -/
def FheState.alloc (f : FheState) (v : Nat) : FheState × Nat :=
  (⟨f.nextHandle + 1,
    fun h => if h = f.nextHandle then v % M64 else f.val h,
    f.acl⟩,
   f.nextHandle)

/-- FHE.asEuint64: trivial encryption of a plaintext constant. -/
def FHE.asEuint64 (f : FheState) (v : Nat) : FheState × Nat := f.alloc v

/-- FHE.fromExternal: ingest an externally produced encrypted input.
Proof verification is delegated to the backend and modelled as succeeding,
so ingestion simply materializes the submitted 64-bit value. -/
def FHE.fromExternal (f : FheState) (v : Nat) : FheState × Nat := f.alloc v

/-- FHE.add: homomorphic addition, producing a ciphertext with a new
identity whose value wraps modulo 2^64. -/
def FHE.add (f : FheState) (a b : Nat) : FheState × Nat :=
  f.alloc (f.val a + f.val b)

/-- FHE.ge: homomorphic greater-or-equal comparison; the encrypted boolean
is a handle holding 1 or 0. -/
def FHE.ge (f : FheState) (a b : Nat) : FheState × Nat :=
  f.alloc (if f.val b ≤ f.val a then 1 else 0)

/-- FHE.select: homomorphic conditional selection on an encrypted boolean. -/
def FHE.select (f : FheState) (c a b : Nat) : FheState × Nat :=
  f.alloc (if f.val c ≠ 0 then f.val a else f.val b)

/-- FHE.allow: issue a decrypt grant on handle h to address a. -/
def FHE.allow (f : FheState) (h : Nat) (a : Nat) : FheState :=
  ⟨f.nextHandle, f.val,
   fun h2 a2 => if h2 = h ∧ a2 = a then true else f.acl h2 a2⟩

/-- FHE.allowThis: grant the contract itself decrypt access to h; the
Solidity helper returns the ciphertext, mirrored by the returned handle. -/
def FHE.allowThis (f : FheState) (h : Nat) : FheState × Nat :=
  (FHE.allow f h thisAddr, h)

/-- Issue a decrypt grant on handle h to every address in the list, in
order; this models the re-authorization for-loops of the contract. -/
def grantAll (f : FheState) (h : Nat) (l : List Nat) : FheState :=
  l.foldl (fun fs a => FHE.allow fs h a) f

/-- The Donation struct of the contract. -/
structure Donation where
  donor : Nat
  amount : Nat
  timestamp : Nat
  roundId : Nat
  deriving DecidableEq

/-- The MatchingCommitment struct of the contract. -/
structure MatchingCommitment where
  matcher : Nat
  maxMatchingAmount : Nat
  minTrigger : Nat
  roundId : Nat
  timestamp : Nat
  isActive : Bool
  deriving DecidableEq

/-- The DonationRound struct of the contract. -/
structure DonationRound where
  id : Nat
  name : String
  description : String
  startTime : Nat
  endTime : Nat
  settled : Bool
  encryptedCommunityTotal : Nat
  encryptedMatchingTotal : Nat
  encryptedFinalTotal : Nat
  publicFinalTotal : Nat
  deriving DecidableEq

/-- The Solidity mapping default value for a DonationRound. -/
def defaultRound : DonationRound :=
  ⟨0, "", "", 0, 0, false, 0, 0, 0, 0⟩

/-- Events emitted by the contract. -/
inductive Event where
  | DonationRoundCreated (roundId : Nat) (name : String) (endTime : Nat)
  | DonationMade (roundId : Nat) (donor : Nat) (timestamp : Nat)
  | MatchingCommitted (roundId : Nat) (matcher : Nat) (timestamp : Nat)
  | RoundSettled (roundId : Nat) (publicFinalTotal : Nat)
  deriving DecidableEq

/-- Failure reasons, following the taxonomy of the specification; each
corresponds to one require statement of the contract. -/
inductive Err where
  | InvalidArgument
  | NotFound
  | AlreadySettled
  | RoundEnded
  | RoundNotEnded
  | DuplicateDonation
  | DuplicateCommitment
  | InvalidProof
  deriving DecidableEq

/-- Full contract storage plus the FHE backend state and the event log. -/
structure ContractState where
  fhe : FheState
  roundCounter : Nat
  rounds : Nat → DonationRound
  roundDonations : Nat → List Donation
  roundMatchingCommitments : Nat → List MatchingCommitment
  hasDonated : Nat → Nat → Bool
  hasCommittedMatching : Nat → Nat → Bool
  events : List Event

/-- The state of a freshly deployed contract. -/
def initState : ContractState :=
  { fhe := ⟨1, fun _ => 0, fun _ _ => false⟩
    roundCounter := 0
    rounds := fun _ => defaultRound
    roundDonations := fun _ => []
    roundMatchingCommitments := fun _ => []
    hasDonated := fun _ _ => false
    hasCommittedMatching := fun _ _ => false
    events := [] }

/-- Decrypt a ciphertext handle (the oracle view of its plaintext). -/
def decrypt (s : ContractState) (h : Nat) : Nat := s.fhe.val h

/-- Whether address a holds a decrypt grant on handle h. -/
def canDecrypt (s : ContractState) (a : Nat) (h : Nat) : Bool :=
  s.fhe.acl h a

/-- Body of createRound after its two require checks. -/
def createRoundCore (s : ContractState) (now : Nat)
    (name description : String) (duration : Nat) : ContractState :=
  let roundId := s.roundCounter + 1
  let startTime := now
  let endTime := startTime + duration
  let p1 := FHE.asEuint64 s.fhe 0
  let p2 := FHE.asEuint64 p1.1 0
  let p3 := FHE.asEuint64 p2.1 0
  let f4 := (FHE.allowThis p3.1 p1.2).1
  let f5 := (FHE.allowThis f4 p2.2).1
  let f6 := (FHE.allowThis f5 p3.2).1
  { s with
    fhe := f6
    roundCounter := roundId
    rounds := fun r =>
      if r = roundId then
        ⟨roundId, name, description, startTime, endTime, false,
         p1.2, p2.2, p3.2, 0⟩
      else s.rounds r
    events := s.events ++ [Event.DonationRoundCreated roundId name endTime] }

/-- createRound: both require failures surface as InvalidArgument. -/
def createRound (s : ContractState) (now : Nat)
    (name description : String) (duration : Nat) :
    Except Err ContractState :=
  if name.length = 0 then .error .InvalidArgument
  else if duration = 0 then .error .InvalidArgument
  else .ok (createRoundCore s now name description duration)

/-- Body of donate after its four require checks. -/
def donateCore (s : ContractState) (now : Nat) (sender : Nat)
    (roundId amountIn : Nat) : ContractState :=
  let p1 := FHE.fromExternal s.fhe amountIn
  let amount := p1.2
  let p2 := FHE.allowThis p1.1 amount
  let p3 := FHE.add p2.1 ((s.rounds roundId).encryptedCommunityTotal) amount
  let newTotal := p3.2
  let donations := s.roundDonations roundId ++ [⟨sender, amount, now, roundId⟩]
  let f4 := (FHE.allowThis p3.1 newTotal).1
  let f5 := FHE.allow f4 amount sender
  let f6 := FHE.allow f5 newTotal sender
  let f7 := grantAll f6 newTotal (donations.dropLast.map (fun d => d.donor))
  { s with
    fhe := f7
    rounds := fun r =>
      if r = roundId then
        { s.rounds roundId with encryptedCommunityTotal := newTotal }
      else s.rounds r
    roundDonations := fun r => if r = roundId then donations else s.roundDonations r
    hasDonated := fun r a =>
      if r = roundId ∧ a = sender then true else s.hasDonated r a
    events := s.events ++ [Event.DonationMade roundId sender now] }

/-- donate with its require checks in source order. -/
def donate (s : ContractState) (now : Nat) (sender : Nat)
    (roundId amountIn : Nat) : Except Err ContractState :=
  if ¬(0 < roundId ∧ roundId ≤ s.roundCounter) then .error .NotFound
  else if (s.rounds roundId).settled then .error .AlreadySettled
  else if ¬(now < (s.rounds roundId).endTime) then .error .RoundEnded
  else if s.hasDonated roundId sender then .error .DuplicateDonation
  else .ok (donateCore s now sender roundId amountIn)

/-- Body of commitMatching after its four require checks. -/
def commitMatchingCore (s : ContractState) (now : Nat) (sender : Nat)
    (roundId maxIn trigIn : Nat) : ContractState :=
  let p1 := FHE.fromExternal s.fhe maxIn
  let p2 := FHE.fromExternal p1.1 trigIn
  let maxMatching := p1.2
  let minTrigger := p2.2
  let f3 := (FHE.allowThis p2.1 maxMatching).1
  let f4 := (FHE.allowThis f3 minTrigger).1
  let f5 := FHE.allow f4 maxMatching sender
  let f6 := FHE.allow f5 minTrigger sender
  { s with
    fhe := f6
    roundMatchingCommitments := fun r =>
      if r = roundId then
        s.roundMatchingCommitments roundId ++
          [⟨sender, maxMatching, minTrigger, roundId, now, true⟩]
      else s.roundMatchingCommitments r
    hasCommittedMatching := fun r a =>
      if r = roundId ∧ a = sender then true else s.hasCommittedMatching r a
    events := s.events ++ [Event.MatchingCommitted roundId sender now] }

/-- commitMatching with its require checks in source order. -/
def commitMatching (s : ContractState) (now : Nat) (sender : Nat)
    (roundId maxIn trigIn : Nat) : Except Err ContractState :=
  if ¬(0 < roundId ∧ roundId ≤ s.roundCounter) then .error .NotFound
  else if (s.rounds roundId).settled then .error .AlreadySettled
  else if ¬(now < (s.rounds roundId).endTime) then .error .RoundEnded
  else if s.hasCommittedMatching roundId sender then .error .DuplicateCommitment
  else .ok (commitMatchingCore s now sender roundId maxIn trigIn)

/-- Body of one active iteration of the settlement for-loop: the encrypted
trigger comparison, the conditional selection against an encrypted zero,
and the homomorphic accumulation into the matching total. -/
def settleStep (community : Nat) (fs : FheState) (mt : Nat)
    (c : MatchingCommitment) : FheState × Nat :=
  let p1 := FHE.ge fs community c.minTrigger
  let p2 := FHE.asEuint64 p1.1 0
  let p3 := FHE.select p2.1 p1.2 c.maxMatchingAmount p2.2
  FHE.add p3.1 mt p3.2

/-- The settlement for-loop over the matching commitments: inactive
commitments are skipped; for an active one settleStep is performed. -/
def settleLoop (community : Nat) (fs : FheState) (mt : Nat) :
    List MatchingCommitment → FheState × Nat
  | [] => (fs, mt)
  | c :: rest =>
    if c.isActive then
      settleLoop community (settleStep community fs mt c).1
        (settleStep community fs mt c).2 rest
    else settleLoop community fs mt rest

/-- Body of settleRound after its three require checks. -/
def settleRoundCore (s : ContractState) (now : Nat) (roundId : Nat) :
    ContractState :=
  let round := s.rounds roundId
  let p0 := FHE.asEuint64 s.fhe 0
  let lp := settleLoop round.encryptedCommunityTotal p0.1 p0.2
    (s.roundMatchingCommitments roundId)
  let matchingTotal := lp.2
  let p2 := FHE.add lp.1 round.encryptedCommunityTotal matchingTotal
  let finalTotal := p2.2
  let f3 := (FHE.allowThis p2.1 finalTotal).1
  let f4 := grantAll f3 finalTotal
    ((s.roundDonations roundId).map (fun d => d.donor))
  let f5 := grantAll f4 finalTotal
    (((s.roundMatchingCommitments roundId).filter (fun c => c.isActive)).map
      (fun c => c.matcher))
  { s with
    fhe := f5
    rounds := fun r =>
      if r = roundId then
        { round with
          settled := true
          encryptedMatchingTotal := matchingTotal
          encryptedFinalTotal := finalTotal }
      else s.rounds r
    events := s.events ++ [Event.RoundSettled roundId 0] }

/-- settleRound with its require checks in source order. -/
def settleRound (s : ContractState) (now : Nat) (roundId : Nat) :
    Except Err ContractState :=
  if ¬(0 < roundId ∧ roundId ≤ s.roundCounter) then .error .NotFound
  else if (s.rounds roundId).settled then .error .AlreadySettled
  else if now < (s.rounds roundId).endTime then .error .RoundNotEnded
  else .ok (settleRoundCore s now roundId)

/-- getRound: the immutable snapshot of an allocated round. -/
def getRound (s : ContractState) (roundId : Nat) : Except Err DonationRound :=
  if ¬(0 < roundId ∧ roundId ≤ s.roundCounter) then .error .NotFound
  else .ok (s.rounds roundId)

/-- getDonationCount of a round. -/
def getDonationCount (s : ContractState) (roundId : Nat) : Except Err Nat :=
  if ¬(0 < roundId ∧ roundId ≤ s.roundCounter) then .error .NotFound
  else .ok (s.roundDonations roundId).length

/-- getMatchingCommitmentCount of a round. -/
def getMatchingCommitmentCount (s : ContractState) (roundId : Nat) :
    Except Err Nat :=
  if ¬(0 < roundId ∧ roundId ≤ s.roundCounter) then .error .NotFound
  else .ok (s.roundMatchingCommitments roundId).length

/-- viewCurrentEncryptedTotal: the current community-total ciphertext. -/
def viewCurrentEncryptedTotal (s : ContractState) (roundId : Nat) :
    Except Err Nat :=
  if ¬(0 < roundId ∧ roundId ≤ s.roundCounter) then .error .NotFound
  else .ok (s.rounds roundId).encryptedCommunityTotal

/-- getRoundCount: the allocation counter. -/
def getRoundCount (s : ContractState) : Nat := s.roundCounter

/-- A state-mutating external call together with its arguments and the
block timestamp and sender of the surrounding transaction. -/
inductive Call where
  | createRound (now : Nat) (name description : String) (duration : Nat)
  | donate (now : Nat) (sender : Nat) (roundId amountIn : Nat)
  | commitMatching (now : Nat) (sender : Nat) (roundId maxIn trigIn : Nat)
  | settleRound (now : Nat) (roundId : Nat)

/-- The Except-valued result of a call. -/
def callResult (s : ContractState) : Call → Except Err ContractState
  | .createRound now name description duration =>
      createRound s now name description duration
  | .donate now sender roundId amountIn => donate s now sender roundId amountIn
  | .commitMatching now sender roundId maxIn trigIn =>
      commitMatching s now sender roundId maxIn trigIn
  | .settleRound now roundId => settleRound s now roundId

/-- Transaction semantics: a failed require reverts every mutation, so an
erroring call leaves the state unchanged. -/
def exec (s : ContractState) (c : Call) : ContractState :=
  match callResult s c with
  | .ok s2 => s2
  | .error _ => s

/-- The matching total described by the specification: the sum, over the
active commitments of the round in insertion order, of the maximum
matching amount when the decrypted community total reaches the trigger,
and 0 otherwise. -/
def matchingSumSpec (s : ContractState) (roundId : Nat) : Nat :=
  (((s.roundMatchingCommitments roundId).filter (fun c => c.isActive)).map
    (fun c =>
      if decrypt s c.minTrigger ≤
          decrypt s ((s.rounds roundId).encryptedCommunityTotal) then
        decrypt s c.maxMatchingAmount
      else 0)).sum

/-- The same sum expressed over a raw value assignment of the FHE store;
used to reason about the settlement loop. -/
def matchingContrib (v : Nat → Nat) (community : Nat)
    (l : List MatchingCommitment) : Nat :=
  ((l.filter (fun c => c.isActive)).map
    (fun c =>
      if v c.minTrigger ≤ v community then v c.maxMatchingAmount else 0)).sum

/-- Run a sequence of donate calls (donor, plaintext amount) against one
round, stopping at the first failure. -/
def donateSeq (s : ContractState) (now roundId : Nat) :
    List (Nat × Nat) → Except Err ContractState
  | [] => .ok s
  | p :: rest =>
    match donate s now p.1 roundId p.2 with
    | .ok s2 => donateSeq s2 now roundId rest
    | .error e => .error e

/-- No decrypt grant exists on a handle the backend has not allocated. -/
def FheState.wf (f : FheState) : Prop :=
  ∀ h, f.nextHandle ≤ h → ∀ a, f.acl h a = false

/-- Every handle value is a 64-bit value. -/
def FheState.valsLt (f : FheState) : Prop := ∀ h, f.val h < M64

/-- Every ciphertext handle stored for an allocated round was allocated by
the backend. -/
def ContractState.handlesOk (s : ContractState) : Prop :=
  ∀ r, 0 < r → r ≤ s.roundCounter →
    ((s.rounds r).encryptedCommunityTotal < s.fhe.nextHandle ∧
     (s.rounds r).encryptedMatchingTotal < s.fhe.nextHandle ∧
     (s.rounds r).encryptedFinalTotal < s.fhe.nextHandle) ∧
    (∀ d ∈ s.roundDonations r, d.amount < s.fhe.nextHandle) ∧
    (∀ c ∈ s.roundMatchingCommitments r,
      c.maxMatchingAmount < s.fhe.nextHandle ∧
      c.minTrigger < s.fhe.nextHandle)

/-- Rounds that have not been allocated have no donations and no
commitments. -/
def ContractState.unallocEmpty (s : ContractState) : Prop :=
  ∀ r, s.roundCounter < r →
    s.roundDonations r = [] ∧ s.roundMatchingCommitments r = []

/-- Every donor on record for an allocated round holds a decrypt grant on
the current community-total ciphertext of that round. -/
def ContractState.donorsGranted (s : ContractState) : Prop :=
  ∀ r, 0 < r → r ≤ s.roundCounter →
    ∀ d ∈ s.roundDonations r,
      s.fhe.acl (s.rounds r).encryptedCommunityTotal d.donor = true

/-- The inductive invariant of the contract: established at deployment and
preserved by every external call. -/
def ContractState.Inv (s : ContractState) : Prop :=
  s.fhe.wf ∧ s.fhe.valsLt ∧ s.handlesOk ∧ s.unallocEmpty ∧ s.donorsGranted

/-- Scenario state: one round of duration 100 created at time 0. -/
def w1 : ContractState :=
  exec initState (.createRound 0 "alpha" "community round" 100)

/-- Scenario state: donor 10 donated 5 to round 1. -/
def w2 : ContractState := exec w1 (.donate 1 10 1 5)

/-- Scenario state: donor 11 additionally donated 7 to round 1. -/
def w3 : ContractState := exec w2 (.donate 2 11 1 7)

/-- Scenario state: matcher 20 committed max 50 with trigger 9 on round 1. -/
def w4 : ContractState := exec w3 (.commitMatching 3 20 1 50 9)

/-- Scenario state: round 1 settled at its end time 100. -/
def w5 : ContractState := exec w4 (.settleRound 100 1)

/-- Overflow scenario: a round of duration 1 created at time 0. -/
def ov1 : ContractState :=
  exec initState (.createRound 0 "beta" "overflow round" 1)

/-- Overflow scenario: donor 10 donated 2^64 - 1 to round 1. -/
def ov2 : ContractState := exec ov1 (.donate 0 10 1 (M64 - 1))

/-- Overflow scenario: matcher 20 committed max 1 with trigger 0. -/
def ov3 : ContractState := exec ov2 (.commitMatching 0 20 1 1 0)

/-- Overflow scenario: round 1 settled at time 1. -/
def ov4 : ContractState := exec ov3 (.settleRound 1 1)

/-- Bare settlement scenario: a round of duration 1 created at time 0. -/
def ng1 : ContractState :=
  exec initState (.createRound 0 "gamma" "plain round" 1)

/-- Bare settlement scenario: round 1 settled with no participants. -/
def ng2 : ContractState := exec ng1 (.settleRound 1 1)

/-- The euint64 modulus is positive. -/
theorem M64_pos : 0 < M64 := by decide

@[simp] theorem alloc_fst_nextHandle (f : FheState) (v : Nat) :
    (f.alloc v).1.nextHandle = f.nextHandle + 1 := rfl

@[simp] theorem alloc_fst_acl (f : FheState) (v : Nat) :
    (f.alloc v).1.acl = f.acl := rfl

@[simp] theorem alloc_snd (f : FheState) (v : Nat) :
    (f.alloc v).2 = f.nextHandle := rfl

theorem alloc_fst_val (f : FheState) (v h : Nat) :
    (f.alloc v).1.val h =
      if h = f.nextHandle then v % M64 else f.val h := rfl

theorem alloc_fst_val_old (f : FheState) (v : Nat) {h : Nat}
    (hh : h ≠ f.nextHandle) : (f.alloc v).1.val h = f.val h := by
  simp [alloc_fst_val, hh]

@[simp] theorem allow_nextHandle (f : FheState) (h : Nat) (a : Nat) :
    (FHE.allow f h a).nextHandle = f.nextHandle := rfl

@[simp] theorem allow_val (f : FheState) (h : Nat) (a : Nat) :
    (FHE.allow f h a).val = f.val := rfl

theorem allow_acl (f : FheState) (h : Nat) (a : Nat)
    (h2 : Nat) (a2 : Nat) :
    (FHE.allow f h a).acl h2 a2 =
      if h2 = h ∧ a2 = a then true else f.acl h2 a2 := rfl

@[simp] theorem grantAll_nextHandle (f : FheState) (h : Nat)
    (l : List Nat) : (grantAll f h l).nextHandle = f.nextHandle := by
  induction l generalizing f with
  | nil => rfl
  | cons a l ih => simpa [grantAll, List.foldl_cons] using ih (FHE.allow f h a)

@[simp] theorem grantAll_val (f : FheState) (h : Nat)
    (l : List Nat) : (grantAll f h l).val = f.val := by
  induction l generalizing f with
  | nil => rfl
  | cons a l ih => simpa [grantAll, List.foldl_cons] using ih (FHE.allow f h a)

theorem grantAll_acl (h : Nat) (l : List Nat) (f : FheState)
    (h2 : Nat) (a2 : Nat) :
    (grantAll f h l).acl h2 a2 =
      if h2 = h ∧ a2 ∈ l then true else f.acl h2 a2 := by
  induction l generalizing f with
  | nil => simp [grantAll]
  | cons a l ih =>
    have step : grantAll f h (a :: l) = grantAll (FHE.allow f h a) h l := rfl
    rw [step, ih]
    by_cases hh : h2 = h
    · subst hh
      by_cases ha : a2 = a
      · subst ha; simp [allow_acl]
      · by_cases hm : a2 ∈ l <;> simp [allow_acl, ha, hm]
    · simp [allow_acl, hh]

/-- Inversion of a successful createRound call. -/
theorem createRound_eq_ok {s : ContractState} {now : Nat}
    {name description : String} {duration : Nat} {s2 : ContractState} :
    createRound s now name description duration = .ok s2 ↔
      name.length ≠ 0 ∧ duration ≠ 0 ∧
      s2 = createRoundCore s now name description duration := by
  by_cases h1 : name.length = 0
  · simp [createRound, h1]
  · by_cases h2 : duration = 0
    · simp [createRound, h1, h2]
    · simp [createRound, h1, h2, eq_comm]

/-- Inversion of a successful donate call. -/
theorem donate_eq_ok {s : ContractState} {now : Nat} {sender : Nat}
    {rid amt : Nat} {s2 : ContractState} :
    donate s now sender rid amt = .ok s2 ↔
      (0 < rid ∧ rid ≤ s.roundCounter) ∧ (s.rounds rid).settled = false ∧
      now < (s.rounds rid).endTime ∧ s.hasDonated rid sender = false ∧
      s2 = donateCore s now sender rid amt := by
  by_cases h1 : 0 < rid ∧ rid ≤ s.roundCounter
  · by_cases h2 : (s.rounds rid).settled = true
    · simp [donate, h1, h2]
    · by_cases h3 : now < (s.rounds rid).endTime
      · by_cases h4 : s.hasDonated rid sender = true
        · simp [donate, h1, h2, h3, h4]
        · simp [donate, h1, h2, h3, h4, eq_comm]
      · simp [donate, h1, h2, h3]
  · simp [donate, h1]

/-- Inversion of a successful commitMatching call. -/
theorem commitMatching_eq_ok {s : ContractState} {now : Nat}
    {sender : Nat} {rid mx tg : Nat} {s2 : ContractState} :
    commitMatching s now sender rid mx tg = .ok s2 ↔
      (0 < rid ∧ rid ≤ s.roundCounter) ∧ (s.rounds rid).settled = false ∧
      now < (s.rounds rid).endTime ∧
      s.hasCommittedMatching rid sender = false ∧
      s2 = commitMatchingCore s now sender rid mx tg := by
  by_cases h1 : 0 < rid ∧ rid ≤ s.roundCounter
  · by_cases h2 : (s.rounds rid).settled = true
    · simp [commitMatching, h1, h2]
    · by_cases h3 : now < (s.rounds rid).endTime
      · by_cases h4 : s.hasCommittedMatching rid sender = true
        · simp [commitMatching, h1, h2, h3, h4]
        · simp [commitMatching, h1, h2, h3, h4, eq_comm]
      · simp [commitMatching, h1, h2, h3]
  · simp [commitMatching, h1]

/-- Inversion of a successful settleRound call. -/
theorem settleRound_eq_ok {s : ContractState} {now rid : Nat}
    {s2 : ContractState} :
    settleRound s now rid = .ok s2 ↔
      (0 < rid ∧ rid ≤ s.roundCounter) ∧ (s.rounds rid).settled = false ∧
      (s.rounds rid).endTime ≤ now ∧
      s2 = settleRoundCore s now rid := by
  by_cases h1 : 0 < rid ∧ rid ≤ s.roundCounter
  · by_cases h2 : (s.rounds rid).settled = true
    · simp [settleRound, h1, h2]
    · by_cases h3 : now < (s.rounds rid).endTime
      · simp [settleRound, h1, h2, h3, Nat.not_le.mpr h3]
      · simp [settleRound, h1, h2, h3, Nat.not_lt.mp h3, eq_comm]
  · simp [settleRound, h1]

/-- Dropping the last element of a list extended by one element. -/
theorem dropLast_append_singleton {α : Type} (l : List α) (x : α) :
    (l ++ [x]).dropLast = l := by simp

section DonateCoreLemmas

variable (s : ContractState) (now : Nat) (sender : Nat) (rid amt : Nat)

@[simp] theorem donateCore_roundCounter :
    (donateCore s now sender rid amt).roundCounter = s.roundCounter := rfl

theorem donateCore_nextHandle :
    (donateCore s now sender rid amt).fhe.nextHandle =
      s.fhe.nextHandle + 2 := by
  simp [donateCore, FHE.fromExternal, FHE.allowThis, FHE.add]

theorem donateCore_rounds (r : Nat) :
    (donateCore s now sender rid amt).rounds r =
      if r = rid then
        { s.rounds rid with encryptedCommunityTotal := s.fhe.nextHandle + 1 }
      else s.rounds r := by
  simp [donateCore, FHE.fromExternal, FHE.allowThis, FHE.add]

theorem donateCore_donations (r : Nat) :
    (donateCore s now sender rid amt).roundDonations r =
      if r = rid then
        s.roundDonations rid ++ [⟨sender, s.fhe.nextHandle, now, rid⟩]
      else s.roundDonations r := by
  simp [donateCore, FHE.fromExternal, FHE.allowThis, FHE.add]

@[simp] theorem donateCore_commitments :
    (donateCore s now sender rid amt).roundMatchingCommitments =
      s.roundMatchingCommitments := rfl

@[simp] theorem donateCore_hasCommittedMatching :
    (donateCore s now sender rid amt).hasCommittedMatching =
      s.hasCommittedMatching := rfl

theorem donateCore_hasDonated (r : Nat) (a : Nat) :
    (donateCore s now sender rid amt).hasDonated r a =
      if r = rid ∧ a = sender then true else s.hasDonated r a := rfl

theorem donateCore_val_newTotal
    (hc : (s.rounds rid).encryptedCommunityTotal ≠ s.fhe.nextHandle) :
    (donateCore s now sender rid amt).fhe.val (s.fhe.nextHandle + 1) =
      (s.fhe.val (s.rounds rid).encryptedCommunityTotal + amt % M64) % M64 := by
  simp [donateCore, FHE.fromExternal, FHE.allowThis, FHE.add,
    alloc_fst_val, hc]

theorem donateCore_val_amount :
    (donateCore s now sender rid amt).fhe.val s.fhe.nextHandle =
      amt % M64 := by
  have hne : s.fhe.nextHandle ≠ s.fhe.nextHandle + 1 := by omega
  simp [donateCore, FHE.fromExternal, FHE.allowThis, FHE.add,
    alloc_fst_val, hne]

theorem donateCore_val_old (h : Nat) (hh : h ≠ s.fhe.nextHandle)
    (hh2 : h ≠ s.fhe.nextHandle + 1) :
    (donateCore s now sender rid amt).fhe.val h = s.fhe.val h := by
  simp [donateCore, FHE.fromExternal, FHE.allowThis, FHE.add,
    alloc_fst_val, hh, hh2]

theorem donateCore_acl_frame (h : Nat) (hh : h ≠ s.fhe.nextHandle)
    (hh2 : h ≠ s.fhe.nextHandle + 1) (a : Nat) :
    (donateCore s now sender rid amt).fhe.acl h a = s.fhe.acl h a := by
  simp [donateCore, FHE.fromExternal, FHE.allowThis, FHE.add, FHE.allow,
    grantAll_acl, allow_acl, hh, hh2]

theorem donateCore_acl_newTotal (a : Nat) :
    (donateCore s now sender rid amt).fhe.acl (s.fhe.nextHandle + 1) a =
      if a ∈ (s.roundDonations rid).map (fun d => d.donor) ∨
          a = sender ∨ a = thisAddr then true
      else s.fhe.acl (s.fhe.nextHandle + 1) a := by
  by_cases h1 : a ∈ (s.roundDonations rid).map (fun d => d.donor) <;>
    by_cases h2 : a = sender <;>
      by_cases h3 : a = thisAddr <;>
        simp [donateCore, FHE.fromExternal, FHE.allowThis, FHE.add,
          grantAll_acl, allow_acl, dropLast_append_singleton, h1, h2, h3,
          show s.fhe.nextHandle + 1 ≠ s.fhe.nextHandle by omega]

theorem donateCore_acl_amount (a : Nat) :
    (donateCore s now sender rid amt).fhe.acl s.fhe.nextHandle a =
      if a = sender ∨ a = thisAddr then true
      else s.fhe.acl s.fhe.nextHandle a := by
  by_cases h2 : a = sender <;>
    by_cases h3 : a = thisAddr <;>
      simp [donateCore, FHE.fromExternal, FHE.allowThis, FHE.add,
        grantAll_acl, allow_acl, h2, h3,
        show s.fhe.nextHandle ≠ s.fhe.nextHandle + 1 by omega]

@[simp] theorem donateCore_events :
    (donateCore s now sender rid amt).events =
      s.events ++ [Event.DonationMade rid sender now] := rfl

end DonateCoreLemmas

section CommitCoreLemmas

variable (s : ContractState) (now : Nat) (sender : Nat) (rid mx tg : Nat)

@[simp] theorem commitCore_roundCounter :
    (commitMatchingCore s now sender rid mx tg).roundCounter =
      s.roundCounter := rfl

@[simp] theorem commitCore_rounds :
    (commitMatchingCore s now sender rid mx tg).rounds = s.rounds := rfl

@[simp] theorem commitCore_donations :
    (commitMatchingCore s now sender rid mx tg).roundDonations =
      s.roundDonations := rfl

@[simp] theorem commitCore_hasDonated :
    (commitMatchingCore s now sender rid mx tg).hasDonated =
      s.hasDonated := rfl

theorem commitCore_nextHandle :
    (commitMatchingCore s now sender rid mx tg).fhe.nextHandle =
      s.fhe.nextHandle + 2 := by
  simp [commitMatchingCore, FHE.fromExternal, FHE.allowThis]

theorem commitCore_commitments (r : Nat) :
    (commitMatchingCore s now sender rid mx tg).roundMatchingCommitments r =
      if r = rid then
        s.roundMatchingCommitments rid ++
          [⟨sender, s.fhe.nextHandle, s.fhe.nextHandle + 1, rid, now, true⟩]
      else s.roundMatchingCommitments r := by
  simp [commitMatchingCore, FHE.fromExternal, FHE.allowThis]

theorem commitCore_hasCommittedMatching (r : Nat) (a : Nat) :
    (commitMatchingCore s now sender rid mx tg).hasCommittedMatching r a =
      if r = rid ∧ a = sender then true
      else s.hasCommittedMatching r a := rfl

theorem commitCore_val_max :
    (commitMatchingCore s now sender rid mx tg).fhe.val s.fhe.nextHandle =
      mx % M64 := by
  simp [commitMatchingCore, FHE.fromExternal, FHE.allowThis,
    alloc_fst_val, show s.fhe.nextHandle ≠ s.fhe.nextHandle + 1 by omega]

theorem commitCore_val_trig :
    (commitMatchingCore s now sender rid mx tg).fhe.val
      (s.fhe.nextHandle + 1) = tg % M64 := by
  simp [commitMatchingCore, FHE.fromExternal, FHE.allowThis, alloc_fst_val]

theorem commitCore_val_old (h : Nat) (hh : h ≠ s.fhe.nextHandle)
    (hh2 : h ≠ s.fhe.nextHandle + 1) :
    (commitMatchingCore s now sender rid mx tg).fhe.val h = s.fhe.val h := by
  simp [commitMatchingCore, FHE.fromExternal, FHE.allowThis,
    alloc_fst_val, hh, hh2]

theorem commitCore_acl_max (a : Nat) :
    (commitMatchingCore s now sender rid mx tg).fhe.acl s.fhe.nextHandle a =
      if a = sender ∨ a = thisAddr then true
      else s.fhe.acl s.fhe.nextHandle a := by
  by_cases h2 : a = sender <;>
    by_cases h3 : a = thisAddr <;>
      simp [commitMatchingCore, FHE.fromExternal, FHE.allowThis,
        allow_acl, h2, h3,
        show s.fhe.nextHandle ≠ s.fhe.nextHandle + 1 by omega]

theorem commitCore_acl_trig (a : Nat) :
    (commitMatchingCore s now sender rid mx tg).fhe.acl
        (s.fhe.nextHandle + 1) a =
      if a = sender ∨ a = thisAddr then true
      else s.fhe.acl (s.fhe.nextHandle + 1) a := by
  by_cases h2 : a = sender <;>
    by_cases h3 : a = thisAddr <;>
      simp [commitMatchingCore, FHE.fromExternal, FHE.allowThis,
        allow_acl, h2, h3,
        show s.fhe.nextHandle + 1 ≠ s.fhe.nextHandle by omega]

theorem commitCore_acl_frame (h : Nat) (hh : h ≠ s.fhe.nextHandle)
    (hh2 : h ≠ s.fhe.nextHandle + 1) (a : Nat) :
    (commitMatchingCore s now sender rid mx tg).fhe.acl h a =
      s.fhe.acl h a := by
  simp [commitMatchingCore, FHE.fromExternal, FHE.allowThis,
    allow_acl, hh, hh2]

end CommitCoreLemmas

section CreateCoreLemmas

variable (s : ContractState) (now : Nat) (nm ds : String) (dur : Nat)

@[simp] theorem createCore_roundCounter :
    (createRoundCore s now nm ds dur).roundCounter = s.roundCounter + 1 := rfl

@[simp] theorem createCore_donations :
    (createRoundCore s now nm ds dur).roundDonations = s.roundDonations := rfl

@[simp] theorem createCore_commitments :
    (createRoundCore s now nm ds dur).roundMatchingCommitments =
      s.roundMatchingCommitments := rfl

@[simp] theorem createCore_hasDonated :
    (createRoundCore s now nm ds dur).hasDonated = s.hasDonated := rfl

@[simp] theorem createCore_hasCommittedMatching :
    (createRoundCore s now nm ds dur).hasCommittedMatching =
      s.hasCommittedMatching := rfl

theorem createCore_nextHandle :
    (createRoundCore s now nm ds dur).fhe.nextHandle =
      s.fhe.nextHandle + 3 := by
  simp [createRoundCore, FHE.asEuint64, FHE.allowThis]

theorem createCore_rounds (r : Nat) :
    (createRoundCore s now nm ds dur).rounds r =
      if r = s.roundCounter + 1 then
        ⟨s.roundCounter + 1, nm, ds, now, now + dur, false,
         s.fhe.nextHandle, s.fhe.nextHandle + 1, s.fhe.nextHandle + 2, 0⟩
      else s.rounds r := by
  simp [createRoundCore, FHE.asEuint64, FHE.allowThis]

theorem createCore_val_old (h : Nat) (hh : h ≠ s.fhe.nextHandle)
    (hh2 : h ≠ s.fhe.nextHandle + 1) (hh3 : h ≠ s.fhe.nextHandle + 2) :
    (createRoundCore s now nm ds dur).fhe.val h = s.fhe.val h := by
  simp [createRoundCore, FHE.asEuint64, FHE.allowThis,
    alloc_fst_val, hh, hh2, hh3]

theorem createCore_val_zero (k : Nat) (hk : k < 3) :
    (createRoundCore s now nm ds dur).fhe.val (s.fhe.nextHandle + k) = 0 := by
  interval_cases k <;>
    simp [createRoundCore, FHE.asEuint64, FHE.allowThis, alloc_fst_val,
      Nat.zero_mod, show s.fhe.nextHandle ≠ s.fhe.nextHandle + 1 by omega,
      show s.fhe.nextHandle ≠ s.fhe.nextHandle + 2 by omega,
      show s.fhe.nextHandle + 1 ≠ s.fhe.nextHandle + 2 by omega]

theorem createCore_acl_frame (h : Nat) (hh : h ≠ s.fhe.nextHandle)
    (hh2 : h ≠ s.fhe.nextHandle + 1) (hh3 : h ≠ s.fhe.nextHandle + 2)
    (a : Nat) :
    (createRoundCore s now nm ds dur).fhe.acl h a = s.fhe.acl h a := by
  simp [createRoundCore, FHE.asEuint64, FHE.allowThis,
    allow_acl, hh, hh2, hh3]

theorem createCore_acl_new (k : Nat) (hk : k < 3) (a : Nat) :
    (createRoundCore s now nm ds dur).fhe.acl (s.fhe.nextHandle + k) a =
      if a = thisAddr then true
      else s.fhe.acl (s.fhe.nextHandle + k) a := by
  by_cases h3 : a = thisAddr <;>
    interval_cases k <;>
      simp [createRoundCore, FHE.asEuint64, FHE.allowThis, allow_acl, h3,
        show s.fhe.nextHandle ≠ s.fhe.nextHandle + 1 by omega,
        show s.fhe.nextHandle ≠ s.fhe.nextHandle + 2 by omega,
        show s.fhe.nextHandle + 1 ≠ s.fhe.nextHandle + 2 by omega,
        show s.fhe.nextHandle + 1 ≠ s.fhe.nextHandle by omega,
        show s.fhe.nextHandle + 2 ≠ s.fhe.nextHandle by omega,
        show s.fhe.nextHandle + 2 ≠ s.fhe.nextHandle + 1 by omega]

end CreateCoreLemmas

section SettleLemmas

variable (community : Nat) (fs : FheState) (mt : Nat) (c : MatchingCommitment)

theorem settleStep_nextHandle :
    (settleStep community fs mt c).1.nextHandle = fs.nextHandle + 4 := by
  simp [settleStep, FHE.ge, FHE.asEuint64, FHE.select, FHE.add]

theorem settleStep_snd :
    (settleStep community fs mt c).2 = fs.nextHandle + 3 := by
  simp [settleStep, FHE.ge, FHE.asEuint64, FHE.select, FHE.add]

theorem settleStep_acl : (settleStep community fs mt c).1.acl = fs.acl := by
  simp [settleStep, FHE.ge, FHE.asEuint64, FHE.select, FHE.add]

theorem settleStep_val_old (h : Nat) (hh : h < fs.nextHandle) :
    (settleStep community fs mt c).1.val h = fs.val h := by
  simp [settleStep, FHE.ge, FHE.asEuint64, FHE.select, FHE.add,
    alloc_fst_val,
    show h ≠ fs.nextHandle by omega,
    show h ≠ fs.nextHandle + 1 by omega,
    show h ≠ fs.nextHandle + 2 by omega,
    show h ≠ fs.nextHandle + 3 by omega]

theorem settleStep_valsLt (hv : fs.valsLt) :
    (settleStep community fs mt c).1.valsLt := by
  intro h
  by_cases h0 : h = fs.nextHandle + 3
  · simp [settleStep, FHE.ge, FHE.asEuint64, FHE.select, FHE.add,
      alloc_fst_val, h0, Nat.mod_lt _ M64_pos, M64_pos]
  · by_cases h1 : h = fs.nextHandle + 2
    · simp [settleStep, FHE.ge, FHE.asEuint64, FHE.select, FHE.add,
        alloc_fst_val, h0, h1, Nat.mod_lt _ M64_pos, M64_pos,
        show fs.nextHandle + 2 ≠ fs.nextHandle + 3 by omega]
    · by_cases h2 : h = fs.nextHandle + 1
      · simp [settleStep, FHE.ge, FHE.asEuint64, FHE.select, FHE.add,
          alloc_fst_val, h0, h1, h2, Nat.mod_lt _ M64_pos, M64_pos,
          show fs.nextHandle + 1 ≠ fs.nextHandle + 3 by omega,
          show fs.nextHandle + 1 ≠ fs.nextHandle + 2 by omega]
      · by_cases h3 : h = fs.nextHandle
        · simp [settleStep, FHE.ge, FHE.asEuint64, FHE.select, FHE.add,
            alloc_fst_val, h0, h1, h2, h3, Nat.mod_lt _ M64_pos, M64_pos,
            show fs.nextHandle ≠ fs.nextHandle + 3 by omega,
            show fs.nextHandle ≠ fs.nextHandle + 2 by omega,
            show fs.nextHandle ≠ fs.nextHandle + 1 by omega]
        · simpa [settleStep, FHE.ge, FHE.asEuint64, FHE.select, FHE.add,
            alloc_fst_val, h0, h1, h2, h3] using hv h

theorem settleStep_val_new (hc : community < fs.nextHandle)
    (hmt : mt < fs.nextHandle) (hmax : c.maxMatchingAmount < fs.nextHandle)
    (htrig : c.minTrigger < fs.nextHandle) (hv : fs.valsLt) :
    (settleStep community fs mt c).1.val (settleStep community fs mt c).2 =
      (fs.val mt +
        (if fs.val c.minTrigger ≤ fs.val community then
          fs.val c.maxMatchingAmount else 0)) % M64 := by
  have e1 : (1 : Nat) % M64 = 1 := by decide
  by_cases hcv : fs.val c.minTrigger ≤ fs.val community
  · simp [settleStep, FHE.ge, FHE.asEuint64, FHE.select, FHE.add,
      alloc_fst_val, hcv, e1,
      Nat.mod_eq_of_lt (hv c.maxMatchingAmount),
      show fs.nextHandle + 3 = fs.nextHandle + 3 from rfl,
      show community ≠ fs.nextHandle by omega,
      show c.maxMatchingAmount ≠ fs.nextHandle by omega,
      show c.maxMatchingAmount ≠ fs.nextHandle + 1 by omega,
      show c.minTrigger ≠ fs.nextHandle by omega,
      show mt ≠ fs.nextHandle by omega,
      show mt ≠ fs.nextHandle + 1 by omega,
      show mt ≠ fs.nextHandle + 2 by omega,
      show fs.nextHandle + 2 ≠ fs.nextHandle + 1 by omega,
      show fs.nextHandle + 2 ≠ fs.nextHandle by omega]
  · simp [settleStep, FHE.ge, FHE.asEuint64, FHE.select, FHE.add,
      alloc_fst_val, hcv, e1,
      show community ≠ fs.nextHandle by omega,
      show c.maxMatchingAmount ≠ fs.nextHandle by omega,
      show c.maxMatchingAmount ≠ fs.nextHandle + 1 by omega,
      show c.minTrigger ≠ fs.nextHandle by omega,
      show mt ≠ fs.nextHandle by omega,
      show mt ≠ fs.nextHandle + 1 by omega,
      show mt ≠ fs.nextHandle + 2 by omega,
      show fs.nextHandle + 2 ≠ fs.nextHandle + 1 by omega,
      show fs.nextHandle + 2 ≠ fs.nextHandle by omega]

end SettleLemmas

theorem matchingContrib_nil (v : Nat → Nat) (community : Nat) :
    matchingContrib v community [] = 0 := rfl

theorem matchingContrib_cons (v : Nat → Nat) (community : Nat)
    (c : MatchingCommitment) (l : List MatchingCommitment) :
    matchingContrib v community (c :: l) =
      (if c.isActive then
        (if v c.minTrigger ≤ v community then v c.maxMatchingAmount else 0)
      else 0) + matchingContrib v community l := by
  by_cases hact : c.isActive <;>
    simp [matchingContrib, List.filter_cons, hact]

theorem matchingContrib_congr (v1 v2 : Nat → Nat) (community : Nat)
    (l : List MatchingCommitment) (hc : v1 community = v2 community)
    (hl : ∀ c ∈ l, v1 c.minTrigger = v2 c.minTrigger ∧
      v1 c.maxMatchingAmount = v2 c.maxMatchingAmount) :
    matchingContrib v1 community l = matchingContrib v2 community l := by
  induction l with
  | nil => rfl
  | cons c rest ih =>
    have hcr := hl c (by simp)
    have hrest := ih (fun c2 hm => hl c2 (by simp [hm]))
    rw [matchingContrib_cons, matchingContrib_cons, hrest, hc, hcr.1, hcr.2]

/-- Behaviour of the settlement loop: it allocates only fresh handles,
leaves old values and all grants untouched, and accumulates, modulo 2^64,
the contribution of every active commitment into the matching total. -/
theorem settleLoop_spec (community : Nat) (l : List MatchingCommitment) :
    ∀ (fs : FheState) (mt : Nat),
      community < fs.nextHandle → mt < fs.nextHandle →
      (∀ c ∈ l, c.maxMatchingAmount < fs.nextHandle ∧
        c.minTrigger < fs.nextHandle) →
      fs.valsLt →
      fs.nextHandle ≤ (settleLoop community fs mt l).1.nextHandle ∧
      mt ≤ (settleLoop community fs mt l).2 ∧
      (settleLoop community fs mt l).2 <
        (settleLoop community fs mt l).1.nextHandle ∧
      (∀ h, h < fs.nextHandle →
        (settleLoop community fs mt l).1.val h = fs.val h) ∧
      (settleLoop community fs mt l).1.acl = fs.acl ∧
      (settleLoop community fs mt l).1.valsLt ∧
      (settleLoop community fs mt l).1.val (settleLoop community fs mt l).2 =
        (fs.val mt + matchingContrib fs.val community l) % M64 := by
  induction l with
  | nil =>
    intro fs mt hc hmt hl hv
    refine ⟨Nat.le_refl _, Nat.le_refl _, hmt, fun h _ => rfl, rfl, hv, ?_⟩
    simp [settleLoop, matchingContrib_nil, Nat.mod_eq_of_lt (hv mt)]
  | cons c rest ih =>
    intro fs mt hc hmt hl hv
    by_cases hact : c.isActive
    · have hstep : settleLoop community fs mt (c :: rest) =
        settleLoop community (settleStep community fs mt c).1
          (settleStep community fs mt c).2 rest := by
        simp [settleLoop, hact]
      have hn := settleStep_nextHandle community fs mt c
      have hs := settleStep_snd community fs mt c
      have hacl := settleStep_acl community fs mt c
      have hvold := settleStep_val_old community fs mt c
      have hvlt := settleStep_valsLt community fs mt c hv
      have hvnew := settleStep_val_new community fs mt c hc hmt
        (hl c (by simp)).1 (hl c (by simp)).2 hv
      have ihs := ih (settleStep community fs mt c).1
        (settleStep community fs mt c).2
        (by rw [hn]; omega) (by rw [hn, hs]; omega)
        (by
          intro c2 hm
          have := hl c2 (by simp [hm])
          rw [hn]; omega)
        hvlt
      rw [hstep]
      obtain ⟨ih1, ih2, ih3, ih4, ih5, ih6, ih7⟩ := ihs
      refine ⟨by rw [hn] at ih1; omega, ?_, ih3,
        ?_, by rw [ih5, hacl], ih6, ?_⟩
      · exact Nat.le_trans
          (by rw [hs]; omega : mt ≤ (settleStep community fs mt c).2) ih2
      · intro h hh
        rw [ih4 h (by rw [hn]; omega), hvold h hh]
      · have hcongr : matchingContrib (settleStep community fs mt c).1.val
            community rest = matchingContrib fs.val community rest := by
          refine matchingContrib_congr _ _ _ _ (hvold community hc) ?_
          intro c2 hm
          have hb := hl c2 (by simp [hm])
          exact ⟨hvold c2.minTrigger hb.2, hvold c2.maxMatchingAmount hb.1⟩
        rw [ih7, hvnew, hcongr, matchingContrib_cons, if_pos hact,
          Nat.mod_add_mod, Nat.add_assoc]
    · have hstep : settleLoop community fs mt (c :: rest) =
        settleLoop community fs mt rest := by
        simp [settleLoop, hact]
      have ihs := ih fs mt hc hmt
        (fun c2 hm => hl c2 (by simp [hm])) hv
      rw [hstep]
      obtain ⟨ih1, ih2, ih3, ih4, ih5, ih6, ih7⟩ := ihs
      refine ⟨ih1, ih2, ih3, ih4, ih5, ih6, ?_⟩
      rw [ih7, matchingContrib_cons]
      simp [hact]

theorem alloc_valsLt (f : FheState) (v : Nat) (hv : f.valsLt) :
    (f.alloc v).1.valsLt := by
  intro h
  by_cases hh : h = f.nextHandle
  · simp [alloc_fst_val, hh, Nat.mod_lt _ M64_pos]
  · simpa [alloc_fst_val, hh] using hv h

section SettleCoreLemmas

variable (s : ContractState) (now rid : Nat)

@[simp] theorem settleCore_roundCounter :
    (settleRoundCore s now rid).roundCounter = s.roundCounter := rfl

@[simp] theorem settleCore_donations :
    (settleRoundCore s now rid).roundDonations = s.roundDonations := rfl

@[simp] theorem settleCore_commitments :
    (settleRoundCore s now rid).roundMatchingCommitments =
      s.roundMatchingCommitments := rfl

@[simp] theorem settleCore_hasDonated :
    (settleRoundCore s now rid).hasDonated = s.hasDonated := rfl

@[simp] theorem settleCore_hasCommittedMatching :
    (settleRoundCore s now rid).hasCommittedMatching =
      s.hasCommittedMatching := rfl

theorem settleCore_rounds_other (r : Nat) (hr : r ≠ rid) :
    (settleRoundCore s now rid).rounds r = s.rounds r := by
  simp [settleRoundCore, hr]

theorem settleCore_rounds_self :
    (settleRoundCore s now rid).rounds rid =
      { s.rounds rid with
        settled := true
        encryptedMatchingTotal :=
          (settleLoop (s.rounds rid).encryptedCommunityTotal
            (s.fhe.alloc 0).1 s.fhe.nextHandle
            (s.roundMatchingCommitments rid)).2
        encryptedFinalTotal :=
          (settleLoop (s.rounds rid).encryptedCommunityTotal
            (s.fhe.alloc 0).1 s.fhe.nextHandle
            (s.roundMatchingCommitments rid)).1.nextHandle } := by
  simp [settleRoundCore, FHE.asEuint64, FHE.add]

theorem settleCore_community :
    ((settleRoundCore s now rid).rounds rid).encryptedCommunityTotal =
      (s.rounds rid).encryptedCommunityTotal := by
  rw [settleCore_rounds_self]

theorem settleCore_settled :
    ((settleRoundCore s now rid).rounds rid).settled = true := by
  rw [settleCore_rounds_self]

theorem settleCore_endTime :
    ((settleRoundCore s now rid).rounds rid).endTime =
      (s.rounds rid).endTime := by
  rw [settleCore_rounds_self]

end SettleCoreLemmas

/-- Bundle of facts about the body of settleRound: the stored matching and
final totals decrypt to the loop accumulation modulo 2^64, old handles keep
their values and grants, the final total is granted to the contract, all
donors and all active matchers, and the stored matching total carries no
grant at all. -/
theorem settleCore_spec (s : ContractState) (now rid : Nat)
    (hwf : s.fhe.wf) (hvl : s.fhe.valsLt)
    (hcomm : (s.rounds rid).encryptedCommunityTotal < s.fhe.nextHandle)
    (hcl : ∀ c ∈ s.roundMatchingCommitments rid,
      c.maxMatchingAmount < s.fhe.nextHandle ∧
      c.minTrigger < s.fhe.nextHandle) :
    ((settleRoundCore s now rid).fhe.val
        ((settleRoundCore s now rid).rounds rid).encryptedMatchingTotal =
      matchingContrib s.fhe.val (s.rounds rid).encryptedCommunityTotal
        (s.roundMatchingCommitments rid) % M64) ∧
    ((settleRoundCore s now rid).fhe.val
        ((settleRoundCore s now rid).rounds rid).encryptedFinalTotal =
      (s.fhe.val (s.rounds rid).encryptedCommunityTotal +
        matchingContrib s.fhe.val (s.rounds rid).encryptedCommunityTotal
          (s.roundMatchingCommitments rid)) % M64) ∧
    (∀ h, h < s.fhe.nextHandle →
      (settleRoundCore s now rid).fhe.val h = s.fhe.val h) ∧
    (∀ h a, h < s.fhe.nextHandle →
      (settleRoundCore s now rid).fhe.acl h a = s.fhe.acl h a) ∧
    (∀ a, a = thisAddr ∨
        a ∈ (s.roundDonations rid).map (fun d => d.donor) ∨
        a ∈ ((s.roundMatchingCommitments rid).filter
          (fun c => c.isActive)).map (fun c => c.matcher) →
      (settleRoundCore s now rid).fhe.acl
        ((settleRoundCore s now rid).rounds rid).encryptedFinalTotal a =
          true) ∧
    (∀ a, (settleRoundCore s now rid).fhe.acl
        ((settleRoundCore s now rid).rounds rid).encryptedMatchingTotal a =
          false) ∧
    s.fhe.nextHandle ≤ (settleRoundCore s now rid).fhe.nextHandle ∧
    (((settleRoundCore s now rid).rounds rid).encryptedMatchingTotal <
      (settleRoundCore s now rid).fhe.nextHandle ∧
     ((settleRoundCore s now rid).rounds rid).encryptedFinalTotal <
      (settleRoundCore s now rid).fhe.nextHandle) ∧
    (settleRoundCore s now rid).fhe.wf ∧
    (settleRoundCore s now rid).fhe.valsLt := by
  obtain ⟨l1, l2, l3, l4, l5, l6, l7⟩ :=
    settleLoop_spec (s.rounds rid).encryptedCommunityTotal
      (s.roundMatchingCommitments rid) (s.fhe.alloc 0).1 s.fhe.nextHandle
      (by simp; omega) (by simp)
      (fun c hm => by
        have hb := hcl c hm
        constructor <;> simp <;> omega)
      (alloc_valsLt s.fhe 0 hvl)
  have hzero : (s.fhe.alloc 0).1.val s.fhe.nextHandle = 0 := by
    simp [alloc_fst_val]
  have hcongr0 : matchingContrib (s.fhe.alloc 0).1.val
      (s.rounds rid).encryptedCommunityTotal
      (s.roundMatchingCommitments rid) =
      matchingContrib s.fhe.val (s.rounds rid).encryptedCommunityTotal
        (s.roundMatchingCommitments rid) := by
    refine matchingContrib_congr _ _ _ _
      (alloc_fst_val_old s.fhe 0 (by omega)) ?_
    intro c hm
    have hb := hcl c hm
    exact ⟨alloc_fst_val_old s.fhe 0 (by omega),
      alloc_fst_val_old s.fhe 0 (by omega)⟩
  have hlpval : (settleLoop (s.rounds rid).encryptedCommunityTotal
      (s.fhe.alloc 0).1 s.fhe.nextHandle
      (s.roundMatchingCommitments rid)).1.val
      (settleLoop (s.rounds rid).encryptedCommunityTotal
        (s.fhe.alloc 0).1 s.fhe.nextHandle
        (s.roundMatchingCommitments rid)).2 =
      matchingContrib s.fhe.val (s.rounds rid).encryptedCommunityTotal
        (s.roundMatchingCommitments rid) % M64 := by
    rw [l7, hzero, hcongr0, Nat.zero_add]
  have hlpcomm : (settleLoop (s.rounds rid).encryptedCommunityTotal
      (s.fhe.alloc 0).1 s.fhe.nextHandle
      (s.roundMatchingCommitments rid)).1.val
      (s.rounds rid).encryptedCommunityTotal =
      s.fhe.val (s.rounds rid).encryptedCommunityTotal := by
    rw [l4 _ (by simp; omega), alloc_fst_val_old s.fhe 0 (by omega)]
  have hnext1 : s.fhe.nextHandle + 1 ≤
      (settleLoop (s.rounds rid).encryptedCommunityTotal
        (s.fhe.alloc 0).1 s.fhe.nextHandle
        (s.roundMatchingCommitments rid)).1.nextHandle := by
    simpa using l1
  refine ⟨?_, ?_, ?_, ?_, ?_, ?_, ?_, ?_, ?_, ?_⟩
  · rw [settleCore_rounds_self]
    simp only [settleRoundCore, FHE.asEuint64, FHE.add, FHE.allowThis,
      alloc_snd]
    simp [grantAll_acl, allow_acl, alloc_fst_val, Nat.ne_of_lt l3, hlpval]
  · rw [settleCore_rounds_self]
    simp only [settleRoundCore, FHE.asEuint64, FHE.add, FHE.allowThis,
      alloc_snd]
    simp [alloc_fst_val, hlpval, hlpcomm, Nat.mod_add_mod]
  · intro h hh
    simp only [settleRoundCore, FHE.asEuint64, FHE.add, FHE.allowThis,
      alloc_snd]
    simp only [grantAll_val, allow_val]
    rw [alloc_fst_val_old _ _ (by omega : h ≠ _),
      l4 h (by simp; omega), alloc_fst_val_old s.fhe 0 (by omega)]
  · intro h a hh
    simp only [settleRoundCore, FHE.asEuint64, FHE.add, FHE.allowThis,
      alloc_snd]
    simp only [grantAll_acl, allow_acl, alloc_fst_acl]
    rw [l5]
    simp [show h ≠ (settleLoop (s.rounds rid).encryptedCommunityTotal
      (s.fhe.alloc 0).1 s.fhe.nextHandle
      (s.roundMatchingCommitments rid)).1.nextHandle by omega]
  · intro a ha
    rw [settleCore_rounds_self]
    simp only [settleRoundCore, FHE.asEuint64, FHE.add, FHE.allowThis,
      alloc_snd]
    rcases ha with ha | ha | ha <;>
      simp [grantAll_acl, allow_acl, ha]
  · intro a
    rw [settleCore_rounds_self]
    simp only [settleRoundCore, FHE.asEuint64, FHE.add, FHE.allowThis,
      alloc_snd]
    simp only [grantAll_acl, allow_acl, alloc_fst_acl]
    rw [l5]
    simp [Nat.ne_of_lt l3, alloc_fst_acl]
    exact hwf _ (by omega) a
  · simp only [settleRoundCore, FHE.asEuint64, FHE.add, FHE.allowThis,
      alloc_snd]
    simp
    omega
  · rw [settleCore_rounds_self]
    simp only [settleRoundCore, FHE.asEuint64, FHE.add, FHE.allowThis,
      alloc_snd]
    simp
    omega
  · intro h hh a
    simp only [settleRoundCore, FHE.asEuint64, FHE.add, FHE.allowThis,
      alloc_snd] at hh ⊢
    simp only [grantAll_nextHandle, allow_nextHandle,
      alloc_fst_nextHandle] at hh
    simp only [grantAll_acl, allow_acl, alloc_fst_acl]
    rw [l5]
    simp [show h ≠ (settleLoop (s.rounds rid).encryptedCommunityTotal
      (s.fhe.alloc 0).1 s.fhe.nextHandle
      (s.roundMatchingCommitments rid)).1.nextHandle by omega,
      alloc_fst_acl]
    exact hwf _ (by omega) a
  · intro h
    simp only [settleRoundCore, FHE.asEuint64, FHE.add, FHE.allowThis,
      alloc_snd]
    simp only [grantAll_val, allow_val]
    by_cases hh : h = (settleLoop (s.rounds rid).encryptedCommunityTotal
      (s.fhe.alloc 0).1 s.fhe.nextHandle
      (s.roundMatchingCommitments rid)).1.nextHandle
    · simp [alloc_fst_val, hh, Nat.mod_lt _ M64_pos]
    · rw [alloc_fst_val_old _ _ hh]
      exact l6 h

/-- The body of donate preserves the contract invariant. -/
theorem donateCore_Inv (s : ContractState) (now sender rid amt : Nat)
    (hInv : s.Inv) (hr1 : 0 < rid) (hr2 : rid ≤ s.roundCounter) :
    (donateCore s now sender rid amt).Inv := by
  obtain ⟨hwf, hvl, hok, hue, hdg⟩ := hInv
  have hcomm : (s.rounds rid).encryptedCommunityTotal < s.fhe.nextHandle :=
    (hok rid hr1 hr2).1.1
  refine ⟨?_, ?_, ?_, ?_, ?_⟩
  · intro h hh a
    rw [donateCore_nextHandle] at hh
    rw [donateCore_acl_frame s now sender rid amt h (by omega) (by omega) a]
    exact hwf h (by omega) a
  · intro h
    by_cases h1 : h = s.fhe.nextHandle + 1
    · rw [h1, donateCore_val_newTotal s now sender rid amt
        (Nat.ne_of_lt hcomm)]
      exact Nat.mod_lt _ M64_pos
    · by_cases h0 : h = s.fhe.nextHandle
      · rw [h0, donateCore_val_amount]
        exact Nat.mod_lt _ M64_pos
      · rw [donateCore_val_old s now sender rid amt h h0 h1]
        exact hvl h
  · intro r hra hrb
    simp only [donateCore_roundCounter] at hrb
    have hS := hok r hra hrb
    rw [donateCore_nextHandle, donateCore_rounds, donateCore_donations]
    refine ⟨?_, ?_, ?_⟩
    · by_cases hrr : r = rid
    -- the updated round stores the fresh community total
      · subst hrr
        rw [if_pos rfl]
        refine ⟨by simp, by simp; omega, by simp; omega⟩
      · rw [if_neg hrr]
        omega
    · intro d hd
      by_cases hrr : r = rid
      · subst hrr
        rw [if_pos rfl] at hd
        rcases List.mem_append.mp hd with hd | hd
        · have := hS.2.1 d hd; omega
        · rcases List.mem_singleton.mp hd with rfl; simp
      · rw [if_neg hrr] at hd
        have := hS.2.1 d hd; omega
    · intro c hc
      simp only [donateCore_commitments] at hc
      have := hS.2.2 c hc; omega
  · intro r hr
    simp only [donateCore_roundCounter] at hr
    have hrr : r ≠ rid := by omega
    rw [donateCore_donations, if_neg hrr]
    simp only [donateCore_commitments]
    exact hue r hr
  · intro r hra hrb d hd
    simp only [donateCore_roundCounter] at hrb
    rw [donateCore_donations] at hd
    rw [donateCore_rounds]
    by_cases hrr : r = rid
    · rw [hrr] at hd ⊢
      rw [if_pos rfl] at hd ⊢
      show (donateCore s now sender rid amt).fhe.acl
        (s.fhe.nextHandle + 1) d.donor = true
      rw [donateCore_acl_newTotal]
      rcases List.mem_append.mp hd with hd | hd
      · have hmem : d.donor ∈ (s.roundDonations rid).map
          (fun d2 => d2.donor) := List.mem_map_of_mem _ hd
        simp [hmem]
      · rcases List.mem_singleton.mp hd with rfl; simp
    · rw [if_neg hrr] at hd ⊢
      have hcr : (s.rounds r).encryptedCommunityTotal < s.fhe.nextHandle :=
        (hok r hra hrb).1.1
      rw [donateCore_acl_frame s now sender rid amt _ (by omega) (by omega)]
      exact hdg r hra hrb d hd

/-- The body of commitMatching preserves the contract invariant. -/
theorem commitCore_Inv (s : ContractState) (now sender rid mx tg : Nat)
    (hInv : s.Inv) (hr1 : 0 < rid) (hr2 : rid ≤ s.roundCounter) :
    (commitMatchingCore s now sender rid mx tg).Inv := by
  obtain ⟨hwf, hvl, hok, hue, hdg⟩ := hInv
  refine ⟨?_, ?_, ?_, ?_, ?_⟩
  · intro h hh a
    rw [commitCore_nextHandle] at hh
    rw [commitCore_acl_frame s now sender rid mx tg h (by omega) (by omega) a]
    exact hwf h (by omega) a
  · intro h
    by_cases h1 : h = s.fhe.nextHandle + 1
    · rw [h1, commitCore_val_trig]
      exact Nat.mod_lt _ M64_pos
    · by_cases h0 : h = s.fhe.nextHandle
      · rw [h0, commitCore_val_max]
        exact Nat.mod_lt _ M64_pos
      · rw [commitCore_val_old s now sender rid mx tg h h0 h1]
        exact hvl h
  · intro r hra hrb
    simp only [commitCore_roundCounter] at hrb
    have hS := hok r hra hrb
    rw [commitCore_nextHandle, commitCore_commitments]
    simp only [commitCore_rounds, commitCore_donations]
    refine ⟨by omega, ?_, ?_⟩
    · intro d hd
      have := hS.2.1 d hd; omega
    · intro c hc
      by_cases hrr : r = rid
      · rw [hrr] at hc
        rw [if_pos rfl] at hc
        rcases List.mem_append.mp hc with hc | hc
        · have := hS.2.2 c (hrr ▸ hc); omega
        · rcases List.mem_singleton.mp hc with rfl
          constructor <;> simp <;> omega
      · rw [if_neg hrr] at hc
        have := hS.2.2 c hc; omega
  · intro r hr
    simp only [commitCore_roundCounter] at hr
    have hrr : r ≠ rid := by omega
    rw [commitCore_commitments, if_neg hrr]
    simp only [commitCore_donations]
    exact hue r hr
  · intro r hra hrb d hd
    simp only [commitCore_roundCounter] at hrb
    simp only [commitCore_donations] at hd
    simp only [commitCore_rounds]
    have hcr : (s.rounds r).encryptedCommunityTotal < s.fhe.nextHandle :=
      (hok r hra hrb).1.1
    rw [commitCore_acl_frame s now sender rid mx tg _ (by omega) (by omega)]
    exact hdg r hra hrb d hd

/-- The body of createRound preserves the contract invariant. -/
theorem createCore_Inv (s : ContractState) (now : Nat) (nm ds : String)
    (dur : Nat) (hInv : s.Inv) :
    (createRoundCore s now nm ds dur).Inv := by
  obtain ⟨hwf, hvl, hok, hue, hdg⟩ := hInv
  refine ⟨?_, ?_, ?_, ?_, ?_⟩
  · intro h hh a
    rw [createCore_nextHandle] at hh
    rw [createCore_acl_frame s now nm ds dur h (by omega) (by omega)
      (by omega) a]
    exact hwf h (by omega) a
  · intro h
    by_cases h0 : h = s.fhe.nextHandle
    · rw [h0, show s.fhe.nextHandle = s.fhe.nextHandle + 0 by omega,
        createCore_val_zero s now nm ds dur 0 (by omega)]
      exact M64_pos
    · by_cases h1 : h = s.fhe.nextHandle + 1
      · rw [h1, createCore_val_zero s now nm ds dur 1 (by omega)]
        exact M64_pos
      · by_cases h2 : h = s.fhe.nextHandle + 2
        · rw [h2, createCore_val_zero s now nm ds dur 2 (by omega)]
          exact M64_pos
        · rw [createCore_val_old s now nm ds dur h h0 h1 h2]
          exact hvl h
  · intro r hra hrb
    simp only [createCore_roundCounter] at hrb
    rw [createCore_nextHandle]
    simp only [createCore_rounds, createCore_donations,
      createCore_commitments]
    by_cases hrr : r = s.roundCounter + 1
    · rw [if_pos hrr]
      have he := hue r (by omega)
      rw [he.1, he.2]
      refine ⟨⟨by simp <;> omega, by simp <;> omega, by simp <;> omega⟩,
        ?_, ?_⟩
      · intro d hd; cases hd
      · intro c hc; cases hc
    · rw [if_neg hrr]
      have hS := hok r hra (by omega)
      refine ⟨by omega, ?_, ?_⟩
      · intro d hd; have := hS.2.1 d hd; omega
      · intro c hc; have := hS.2.2 c hc; omega
  · intro r hr
    simp only [createCore_roundCounter] at hr
    simp only [createCore_donations, createCore_commitments]
    exact hue r (by omega)
  · intro r hra hrb d hd
    simp only [createCore_roundCounter] at hrb
    simp only [createCore_donations] at hd
    simp only [createCore_rounds]
    by_cases hrr : r = s.roundCounter + 1
    · exfalso
      have he := hue r (by omega)
      rw [he.1] at hd
      cases hd
    · rw [if_neg hrr]
      have hcr : (s.rounds r).encryptedCommunityTotal < s.fhe.nextHandle :=
        (hok r hra (by omega)).1.1
      rw [createCore_acl_frame s now nm ds dur _ (by omega) (by omega)
        (by omega)]
      exact hdg r hra (by omega) d hd

/-- The body of settleRound preserves the contract invariant. -/
theorem settleCore_Inv (s : ContractState) (now rid : Nat)
    (hInv : s.Inv) (hr1 : 0 < rid) (hr2 : rid ≤ s.roundCounter) :
    (settleRoundCore s now rid).Inv := by
  obtain ⟨hwf, hvl, hok, hue, hdg⟩ := hInv
  have hS := hok rid hr1 hr2
  obtain ⟨c1, c2, c3, c4, c5, c6, c7, c8, c9, c10⟩ :=
    settleCore_spec s now rid hwf hvl hS.1.1 hS.2.2
  refine ⟨c9, c10, ?_, ?_, ?_⟩
  · intro r hra hrb
    simp only [settleCore_roundCounter] at hrb
    have hR := hok r hra hrb
    simp only [settleCore_donations, settleCore_commitments]
    by_cases hrr : r = rid
    · rw [hrr]
      refine ⟨⟨?_, c8.1, c8.2⟩, ?_, ?_⟩
      · rw [settleCore_community]; omega
      · intro d hd; have := hS.2.1 d hd; omega
      · intro c hc; have := hS.2.2 c hc
        constructor <;> omega
    · rw [settleCore_rounds_other s now rid r hrr]
      refine ⟨⟨by omega, by omega, by omega⟩, ?_, ?_⟩
      · intro d hd; have := hR.2.1 d hd; omega
      · intro c hc; have := hR.2.2 c hc
        constructor <;> omega
  · intro r hr
    simp only [settleCore_roundCounter] at hr
    simp only [settleCore_donations, settleCore_commitments]
    exact hue r hr
  · intro r hra hrb d hd
    simp only [settleCore_roundCounter] at hrb
    simp only [settleCore_donations] at hd
    have hR := hok r hra hrb
    by_cases hrr : r = rid
    · rw [hrr, settleCore_community]
      rw [c4 _ _ hS.1.1]
      exact hdg rid hr1 hr2 d (hrr ▸ hd)
    · rw [settleCore_rounds_other s now rid r hrr]
      rw [c4 _ _ hR.1.1]
      exact hdg r hra hrb d hd

/-- The deployment state satisfies the invariant. -/
theorem initState_Inv : initState.Inv := by
  refine ⟨?_, ?_, ?_, ?_, ?_⟩
  · intro h hh a; rfl
  · intro h; exact M64_pos
  · intro r hra hrb
    simp [initState] at hrb
    omega
  · intro r hr
    exact ⟨rfl, rfl⟩
  · intro r hra hrb d hd
    simp [initState] at hd

/-- Every call preserves the contract invariant. -/
theorem Inv_exec (s : ContractState) (c : Call) (hInv : s.Inv) :
    (exec s c).Inv := by
  cases c with
  | createRound now nm ds dur =>
    cases hres : createRound s now nm ds dur with
    | ok s2 =>
      have h2 := createRound_eq_ok.mp hres
      have he : exec s (.createRound now nm ds dur) = s2 := by
        simp [exec, callResult, hres]
      rw [he, h2.2.2]
      exact createCore_Inv s now nm ds dur hInv
    | error e =>
      have he : exec s (.createRound now nm ds dur) = s := by
        simp [exec, callResult, hres]
      rw [he]; exact hInv
  | donate now sender rid amt =>
    cases hres : donate s now sender rid amt with
    | ok s2 =>
      have h2 := donate_eq_ok.mp hres
      have he : exec s (.donate now sender rid amt) = s2 := by
        simp [exec, callResult, hres]
      rw [he, h2.2.2.2.2]
      exact donateCore_Inv s now sender rid amt hInv h2.1.1 h2.1.2
    | error e =>
      have he : exec s (.donate now sender rid amt) = s := by
        simp [exec, callResult, hres]
      rw [he]; exact hInv
  | commitMatching now sender rid mx tg =>
    cases hres : commitMatching s now sender rid mx tg with
    | ok s2 =>
      have h2 := commitMatching_eq_ok.mp hres
      have he : exec s (.commitMatching now sender rid mx tg) = s2 := by
        simp [exec, callResult, hres]
      rw [he, h2.2.2.2.2]
      exact commitCore_Inv s now sender rid mx tg hInv h2.1.1 h2.1.2
    | error e =>
      have he : exec s (.commitMatching now sender rid mx tg) = s := by
        simp [exec, callResult, hres]
      rw [he]; exact hInv
  | settleRound now rid =>
    cases hres : settleRound s now rid with
    | ok s2 =>
      have h2 := settleRound_eq_ok.mp hres
      have he : exec s (.settleRound now rid) = s2 := by
        simp [exec, callResult, hres]
      rw [he, h2.2.2.2]
      exact settleCore_Inv s now rid hInv h2.1.1 h2.1.2
    | error e =>
      have he : exec s (.settleRound now rid) = s := by
        simp [exec, callResult, hres]
      rw [he]; exact hInv

/-- No call changes the grants of an already allocated ciphertext handle:
every grant any call issues targets a handle freshly allocated inside that
same call. -/
theorem exec_acl_frame (s : ContractState) (c : Call) (h : Nat) (a : Nat)
    (hInv : s.Inv) (hh : h < s.fhe.nextHandle) :
    (exec s c).fhe.acl h a = s.fhe.acl h a := by
  obtain ⟨hwf, hvl, hok, hue, hdg⟩ := hInv
  cases c with
  | createRound now nm ds dur =>
    cases hres : createRound s now nm ds dur with
    | ok s2 =>
      have h2 := createRound_eq_ok.mp hres
      have he : exec s (.createRound now nm ds dur) = s2 := by
        simp [exec, callResult, hres]
      rw [he, h2.2.2]
      exact createCore_acl_frame s now nm ds dur h (by omega) (by omega)
        (by omega) a
    | error e =>
      have he : exec s (.createRound now nm ds dur) = s := by
        simp [exec, callResult, hres]
      rw [he]
  | donate now sender rid amt =>
    cases hres : donate s now sender rid amt with
    | ok s2 =>
      have h2 := donate_eq_ok.mp hres
      have he : exec s (.donate now sender rid amt) = s2 := by
        simp [exec, callResult, hres]
      rw [he, h2.2.2.2.2]
      exact donateCore_acl_frame s now sender rid amt h (by omega)
        (by omega) a
    | error e =>
      have he : exec s (.donate now sender rid amt) = s := by
        simp [exec, callResult, hres]
      rw [he]
  | commitMatching now sender rid mx tg =>
    cases hres : commitMatching s now sender rid mx tg with
    | ok s2 =>
      have h2 := commitMatching_eq_ok.mp hres
      have he : exec s (.commitMatching now sender rid mx tg) = s2 := by
        simp [exec, callResult, hres]
      rw [he, h2.2.2.2.2]
      exact commitCore_acl_frame s now sender rid mx tg h (by omega)
        (by omega) a
    | error e =>
      have he : exec s (.commitMatching now sender rid mx tg) = s := by
        simp [exec, callResult, hres]
      rw [he]
  | settleRound now rid =>
    cases hres : settleRound s now rid with
    | ok s2 =>
      have h2 := settleRound_eq_ok.mp hres
      have hS := hok rid h2.1.1 h2.1.2
      obtain ⟨c1, c2, c3, c4, c5, c6, c7, c8, c9, c10⟩ :=
        settleCore_spec s now rid hwf hvl hS.1.1 hS.2.2
      have he : exec s (.settleRound now rid) = s2 := by
        simp [exec, callResult, hres]
      rw [he, h2.2.2.2]
      exact c4 h a hh
    | error e =>
      have he : exec s (.settleRound now rid) = s := by
        simp [exec, callResult, hres]
      rw [he]

/-- No call decreases the allocation counter of the FHE backend. -/
theorem exec_nextHandle_mono (s : ContractState) (c : Call)
    (hInv : s.Inv) :
    s.fhe.nextHandle ≤ (exec s c).fhe.nextHandle := by
  obtain ⟨hwf, hvl, hok, hue, hdg⟩ := hInv
  cases c with
  | createRound now nm ds dur =>
    cases hres : createRound s now nm ds dur with
    | ok s2 =>
      have h2 := createRound_eq_ok.mp hres
      have he : exec s (.createRound now nm ds dur) = s2 := by
        simp [exec, callResult, hres]
      rw [he, h2.2.2, createCore_nextHandle]
      omega
    | error e =>
      have he : exec s (.createRound now nm ds dur) = s := by
        simp [exec, callResult, hres]
      rw [he]
  | donate now sender rid amt =>
    cases hres : donate s now sender rid amt with
    | ok s2 =>
      have h2 := donate_eq_ok.mp hres
      have he : exec s (.donate now sender rid amt) = s2 := by
        simp [exec, callResult, hres]
      rw [he, h2.2.2.2.2, donateCore_nextHandle]
      omega
    | error e =>
      have he : exec s (.donate now sender rid amt) = s := by
        simp [exec, callResult, hres]
      rw [he]
  | commitMatching now sender rid mx tg =>
    cases hres : commitMatching s now sender rid mx tg with
    | ok s2 =>
      have h2 := commitMatching_eq_ok.mp hres
      have he : exec s (.commitMatching now sender rid mx tg) = s2 := by
        simp [exec, callResult, hres]
      rw [he, h2.2.2.2.2, commitCore_nextHandle]
      omega
    | error e =>
      have he : exec s (.commitMatching now sender rid mx tg) = s := by
        simp [exec, callResult, hres]
      rw [he]
  | settleRound now rid =>
    cases hres : settleRound s now rid with
    | ok s2 =>
      have h2 := settleRound_eq_ok.mp hres
      have hS := hok rid h2.1.1 h2.1.2
      obtain ⟨c1, c2, c3, c4, c5, c6, c7, c8, c9, c10⟩ :=
        settleCore_spec s now rid hwf hvl hS.1.1 hS.2.2
      have he : exec s (.settleRound now rid) = s2 := by
        simp [exec, callResult, hres]
      rw [he, h2.2.2.2]
      exact c7
    | error e =>
      have he : exec s (.settleRound now rid) = s := by
        simp [exec, callResult, hres]
      rw [he]

/-- Once a round is settled, no call ever resets the flag. -/
theorem exec_settled_mono (s : ContractState) (c : Call) (rid : Nat)
    (hr2 : rid ≤ s.roundCounter)
    (hset : (s.rounds rid).settled = true) :
    ((exec s c).rounds rid).settled = true := by
  cases c with
  | createRound now nm ds dur =>
    cases hres : createRound s now nm ds dur with
    | ok s2 =>
      have h2 := createRound_eq_ok.mp hres
      have he : exec s (.createRound now nm ds dur) = s2 := by
        simp [exec, callResult, hres]
      rw [he, h2.2.2, createCore_rounds,
        if_neg (by omega : rid ≠ s.roundCounter + 1)]
      exact hset
    | error e =>
      have he : exec s (.createRound now nm ds dur) = s := by
        simp [exec, callResult, hres]
      rw [he]; exact hset
  | donate now sender rid2 amt =>
    cases hres : donate s now sender rid2 amt with
    | ok s2 =>
      have h2 := donate_eq_ok.mp hres
      have he : exec s (.donate now sender rid2 amt) = s2 := by
        simp [exec, callResult, hres]
      rw [he, h2.2.2.2.2, donateCore_rounds]
      by_cases hrr : rid = rid2
      · rw [if_pos hrr]
        show (s.rounds rid2).settled = true
        exact hrr ▸ hset
      · rw [if_neg hrr]; exact hset
    | error e =>
      have he : exec s (.donate now sender rid2 amt) = s := by
        simp [exec, callResult, hres]
      rw [he]; exact hset
  | commitMatching now sender rid2 mx tg =>
    cases hres : commitMatching s now sender rid2 mx tg with
    | ok s2 =>
      have h2 := commitMatching_eq_ok.mp hres
      have he : exec s (.commitMatching now sender rid2 mx tg) = s2 := by
        simp [exec, callResult, hres]
      rw [he, h2.2.2.2.2]
      simp only [commitCore_rounds]
      exact hset
    | error e =>
      have he : exec s (.commitMatching now sender rid2 mx tg) = s := by
        simp [exec, callResult, hres]
      rw [he]; exact hset
  | settleRound now rid2 =>
    cases hres : settleRound s now rid2 with
    | ok s2 =>
      have h2 := settleRound_eq_ok.mp hres
      have he : exec s (.settleRound now rid2) = s2 := by
        simp [exec, callResult, hres]
      rw [he, h2.2.2.2]
      by_cases hrr : rid = rid2
      · rw [hrr, settleCore_settled]
      · rw [settleCore_rounds_other s now rid2 rid hrr]
        exact hset
    | error e =>
      have he : exec s (.settleRound now rid2) = s := by
        simp [exec, callResult, hres]
      rw [he]; exact hset

/-- C4: donate checks its preconditions in source order with the first
failure winning: round bounds (NotFound), settled flag (AlreadySettled),
time window (RoundEnded), duplicate donor (DuplicateDonation); any failing
require reverts the transaction, so an erroring call leaves every piece of
state (donations, donationCount, community total, hasDonated) unchanged. -/
theorem donate_precondition_order (s : ContractState)
    (now sender rid amt : Nat) :
    (¬(0 < rid ∧ rid ≤ s.roundCounter) →
      donate s now sender rid amt = .error .NotFound) ∧
    ((0 < rid ∧ rid ≤ s.roundCounter) → (s.rounds rid).settled = true →
      donate s now sender rid amt = .error .AlreadySettled) ∧
    ((0 < rid ∧ rid ≤ s.roundCounter) → (s.rounds rid).settled = false →
      (s.rounds rid).endTime ≤ now →
      donate s now sender rid amt = .error .RoundEnded) ∧
    ((0 < rid ∧ rid ≤ s.roundCounter) → (s.rounds rid).settled = false →
      now < (s.rounds rid).endTime → s.hasDonated rid sender = true →
      donate s now sender rid amt = .error .DuplicateDonation) ∧
    (∀ e, donate s now sender rid amt = .error e →
      exec s (.donate now sender rid amt) = s) := by
  refine ⟨?_, ?_, ?_, ?_, ?_⟩
  · intro h1; simp [donate, h1]
  · intro h1 h2; simp [donate, h1, h2]
  · intro h1 h2 h3; simp [donate, h1, h2, Nat.not_lt.mpr h3]
  · intro h1 h2 h3 h4; simp [donate, h1, h2, h3, h4]
  · intro e he; simp [exec, callResult, he]

/-- C9: getRound, getDonationCount and getMatchingCommitmentCount fail with
NotFound for every id outside [1, roundCount] and succeed for every id
inside it; they are view functions, taking the state as a read-only
argument and returning only the requested value, so they mutate nothing. -/
theorem readers_bounds_check (s : ContractState) (rid : Nat) :
    (¬(1 ≤ rid ∧ rid ≤ s.roundCounter) →
      getRound s rid = .error .NotFound ∧
      getDonationCount s rid = .error .NotFound ∧
      getMatchingCommitmentCount s rid = .error .NotFound) ∧
    ((1 ≤ rid ∧ rid ≤ s.roundCounter) →
      getRound s rid = .ok (s.rounds rid) ∧
      getDonationCount s rid = .ok (s.roundDonations rid).length ∧
      getMatchingCommitmentCount s rid =
        .ok (s.roundMatchingCommitments rid).length) := by
  constructor
  · intro h1
    have h2 : ¬(0 < rid ∧ rid ≤ s.roundCounter) := by omega
    exact ⟨by simp [getRound, h2], by simp [getDonationCount, h2],
      by simp [getMatchingCommitmentCount, h2]⟩
  · intro h1
    have h2 : 0 < rid ∧ rid ≤ s.roundCounter := by omega
    exact ⟨by simp [getRound, h2], by simp [getDonationCount, h2],
      by simp [getMatchingCommitmentCount, h2]⟩

/-- C5: settleRound on an existing unsettled round fails with RoundNotEnded
strictly before the end time, succeeds at or after it and sets the settled
flag; a settled round always answers AlreadySettled and the reverted call
leaves the whole state (totals included) unchanged; no call of any kind
ever resets the settled flag of an allocated round. -/
theorem settleRound_lifecycle (s : ContractState) (now rid : Nat) :
    ((0 < rid ∧ rid ≤ s.roundCounter) → (s.rounds rid).settled = false →
      now < (s.rounds rid).endTime →
      settleRound s now rid = .error .RoundNotEnded) ∧
    ((0 < rid ∧ rid ≤ s.roundCounter) → (s.rounds rid).settled = false →
      (s.rounds rid).endTime ≤ now →
      settleRound s now rid = .ok (settleRoundCore s now rid) ∧
      ((settleRoundCore s now rid).rounds rid).settled = true) ∧
    ((0 < rid ∧ rid ≤ s.roundCounter) → (s.rounds rid).settled = true →
      settleRound s now rid = .error .AlreadySettled ∧
      exec s (.settleRound now rid) = s) ∧
    (∀ e, settleRound s now rid = .error e →
      exec s (.settleRound now rid) = s) ∧
    (∀ c : Call, rid ≤ s.roundCounter → (s.rounds rid).settled = true →
      ((exec s c).rounds rid).settled = true) := by
  refine ⟨?_, ?_, ?_, ?_, ?_⟩
  · intro h1 h2 h3; simp [settleRound, h1, h2, h3]
  · intro h1 h2 h3
    refine ⟨by simp [settleRound, h1, h2, Nat.not_lt.mpr h3], ?_⟩
    rw [settleCore_settled]
  · intro h1 h2
    have he : settleRound s now rid = .error .AlreadySettled := by
      simp [settleRound, h1, h2]
    exact ⟨he, by simp [exec, callResult, he]⟩
  · intro e he; simp [exec, callResult, he]
  · intro c hr2 hset
    exact exec_settled_mono s c rid hr2 hset

/-- C7 (amended): createRound rejects an empty name or a zero duration with
InvalidArgument and, as a reverted transaction, changes nothing; otherwise
it allocates the next round id roundCount + 1 (strictly above every id
allocated before, hence monotonically increasing and never reused), stores
startTime = now, endTime = now + duration, settled = false,
publicFinalTotal = 0 and three fresh ciphertexts each decrypting to zero.
The function itself returns no value: the Solidity signature declares no
return values, and callers observe the new id through roundCount. -/
theorem createRound_behavior (s : ContractState) (now : Nat)
    (nm ds : String) (dur : Nat) :
    ((nm.length = 0 ∨ dur = 0) →
      createRound s now nm ds dur = .error .InvalidArgument ∧
      exec s (.createRound now nm ds dur) = s) ∧
    (nm.length ≠ 0 → dur ≠ 0 →
      createRound s now nm ds dur = .ok (createRoundCore s now nm ds dur) ∧
      (createRoundCore s now nm ds dur).roundCounter = s.roundCounter + 1 ∧
      (createRoundCore s now nm ds dur).rounds (s.roundCounter + 1) =
        ⟨s.roundCounter + 1, nm, ds, now, now + dur, false,
         s.fhe.nextHandle, s.fhe.nextHandle + 1, s.fhe.nextHandle + 2, 0⟩ ∧
      decrypt (createRoundCore s now nm ds dur) s.fhe.nextHandle = 0 ∧
      decrypt (createRoundCore s now nm ds dur) (s.fhe.nextHandle + 1) = 0 ∧
      decrypt (createRoundCore s now nm ds dur) (s.fhe.nextHandle + 2) = 0 ∧
      (∀ r, r ≠ s.roundCounter + 1 →
        (createRoundCore s now nm ds dur).rounds r = s.rounds r)) := by
  constructor
  · intro h1
    have he : createRound s now nm ds dur = .error .InvalidArgument := by
      rcases h1 with h1 | h1
      · simp [createRound, h1]
      · by_cases h0 : nm.length = 0 <;> simp [createRound, h0, h1]
    exact ⟨he, by simp [exec, callResult, he]⟩
  · intro h1 h2
    refine ⟨by simp [createRound, h1, h2], rfl, ?_, ?_, ?_, ?_, ?_⟩
    · rw [createCore_rounds, if_pos rfl]
    · show (createRoundCore s now nm ds dur).fhe.val
        (s.fhe.nextHandle + 0) = 0
      rw [createCore_val_zero s now nm ds dur 0 (by omega)]
    · exact createCore_val_zero s now nm ds dur 1 (by omega)
    · exact createCore_val_zero s now nm ds dur 2 (by omega)
    · intro r hr
      rw [createCore_rounds, if_neg hr]

/-- C7 counterexample to the return-value clause: at a concrete valid
input the entire result of createRound is the updated state. The codomain
of createRound, translated from the Solidity signature, which declares no
return values, carries no round id; the new id 1 is observable only
through roundCount (and the emitted event), not as a return value. -/
theorem createRound_no_return_counterexample :
    createRound initState 0 "alpha" "community round" 100 = .ok w1 ∧
    w1.roundCounter = 1 ∧ getRoundCount w1 = 1 ∧
    w1.events = [Event.DonationRoundCreated 1 "alpha" 100] := by
  exact ⟨rfl, rfl, rfl, rfl⟩

/-- C10: a successful donate appends a Donation record holding a fresh
ciphertext of the submitted amount and grants the donor a decrypt right
on that individual amount ciphertext (line FHE.allow(amount, msg.sender)),
in addition to the grant on the aggregated community total. -/
theorem donate_grants_own_amount (s : ContractState)
    (now sender rid amt : Nat) (s2 : ContractState)
    (h : donate s now sender rid amt = .ok s2) :
    s2.roundDonations rid =
      s.roundDonations rid ++ [⟨sender, s.fhe.nextHandle, now, rid⟩] ∧
    canDecrypt s2 sender s.fhe.nextHandle = true ∧
    decrypt s2 s.fhe.nextHandle = amt % M64 ∧
    canDecrypt s2 sender ((s2.rounds rid).encryptedCommunityTotal) = true := by
  obtain ⟨hb, hset, hnow, hdon, rfl⟩ := donate_eq_ok.mp h
  refine ⟨?_, ?_, ?_, ?_⟩
  · rw [donateCore_donations, if_pos rfl]
  · show (donateCore s now sender rid amt).fhe.acl
      s.fhe.nextHandle sender = true
    rw [donateCore_acl_amount]
    simp
  · exact donateCore_val_amount s now sender rid amt
  · show (donateCore s now sender rid amt).fhe.acl
      ((donateCore s now sender rid amt).rounds rid).encryptedCommunityTotal
      sender = true
    rw [donateCore_rounds, if_pos rfl]
    show (donateCore s now sender rid amt).fhe.acl
      (s.fhe.nextHandle + 1) sender = true
    rw [donateCore_acl_newTotal]
    simp

/-- C2: after a successful donate, the contract itself, the donating
sender and every prior donor of the round (the re-authorization loop
replays them in donation order) hold decrypt grants on the new
community-total ciphertext; and, as an invariant preserved by every call,
no donor of any allocated round ever lacks a grant on the current
community total once recorded. -/
theorem donate_regrants_all_donors (s : ContractState)
    (now sender rid amt : Nat) (s2 : ContractState)
    (h : donate s now sender rid amt = .ok s2) :
    canDecrypt s2 thisAddr ((s2.rounds rid).encryptedCommunityTotal) =
      true ∧
    canDecrypt s2 sender ((s2.rounds rid).encryptedCommunityTotal) = true ∧
    (∀ d ∈ s.roundDonations rid,
      canDecrypt s2 d.donor ((s2.rounds rid).encryptedCommunityTotal) =
        true) ∧
    (∀ d ∈ s2.roundDonations rid,
      canDecrypt s2 d.donor ((s2.rounds rid).encryptedCommunityTotal) =
        true) ∧
    (∀ (t : ContractState) (c : Call), t.Inv →
      ∀ r, 0 < r → r ≤ (exec t c).roundCounter →
        ∀ d ∈ (exec t c).roundDonations r,
          canDecrypt (exec t c) d.donor
            (((exec t c).rounds r).encryptedCommunityTotal) = true) := by
  obtain ⟨hb, hset, hnow, hdon, rfl⟩ := donate_eq_ok.mp h
  have hct : ((donateCore s now sender rid amt).rounds rid).encryptedCommunityTotal =
      s.fhe.nextHandle + 1 := by
    rw [donateCore_rounds, if_pos rfl]
  refine ⟨?_, ?_, ?_, ?_, ?_⟩
  · show (donateCore s now sender rid amt).fhe.acl
      ((donateCore s now sender rid amt).rounds rid).encryptedCommunityTotal
      thisAddr = true
    rw [hct, donateCore_acl_newTotal]
    simp
  · show (donateCore s now sender rid amt).fhe.acl
      ((donateCore s now sender rid amt).rounds rid).encryptedCommunityTotal
      sender = true
    rw [hct, donateCore_acl_newTotal]
    simp
  · intro d hd
    show (donateCore s now sender rid amt).fhe.acl
      ((donateCore s now sender rid amt).rounds rid).encryptedCommunityTotal
      d.donor = true
    rw [hct, donateCore_acl_newTotal]
    have hmem : d.donor ∈ (s.roundDonations rid).map (fun d2 => d2.donor) :=
      List.mem_map_of_mem _ hd
    simp [hmem]
  · intro d hd
    rw [donateCore_donations, if_pos rfl] at hd
    show (donateCore s now sender rid amt).fhe.acl
      ((donateCore s now sender rid amt).rounds rid).encryptedCommunityTotal
      d.donor = true
    rw [hct, donateCore_acl_newTotal]
    rcases List.mem_append.mp hd with hd | hd
    · have hmem : d.donor ∈ (s.roundDonations rid).map (fun d2 => d2.donor) :=
        List.mem_map_of_mem _ hd
      simp [hmem]
    · rcases List.mem_singleton.mp hd with rfl
      simp
  · intro t c hInv r hra hrb d hd
    exact (Inv_exec t c hInv).2.2.2.2 r hra hrb d hd

/-- C3 (amended): the two ciphertext-replacing updates re-grant in the
same call: donate grants the new community total to the contract, the
sender and every prior donor, and settleRound grants the new final total
to the contract, every donor and every active matcher. The new matching
total stored by settleRound, by contrast, receives no decrypt grant at
all, not even for the contract itself. -/
theorem regrant_discipline_on_update (s : ContractState)
    (now sender rid amt : Nat) (s2 s3 : ContractState) (hInv : s.Inv) :
    (donate s now sender rid amt = .ok s2 →
      canDecrypt s2 thisAddr ((s2.rounds rid).encryptedCommunityTotal) =
        true ∧
      canDecrypt s2 sender ((s2.rounds rid).encryptedCommunityTotal) =
        true ∧
      (∀ d ∈ s.roundDonations rid,
        canDecrypt s2 d.donor ((s2.rounds rid).encryptedCommunityTotal) =
          true)) ∧
    (settleRound s now rid = .ok s3 →
      canDecrypt s3 thisAddr ((s3.rounds rid).encryptedFinalTotal) = true ∧
      (∀ d ∈ s.roundDonations rid,
        canDecrypt s3 d.donor ((s3.rounds rid).encryptedFinalTotal) =
          true) ∧
      (∀ c ∈ s.roundMatchingCommitments rid, c.isActive = true →
        canDecrypt s3 c.matcher ((s3.rounds rid).encryptedFinalTotal) =
          true) ∧
      (∀ a, canDecrypt s3 a ((s3.rounds rid).encryptedMatchingTotal) =
        false)) := by
  obtain ⟨hwf, hvl, hok, hue, hdg⟩ := hInv
  constructor
  · intro h
    obtain ⟨hb, hset, hnow, hdon, rfl⟩ := donate_eq_ok.mp h
    have hct : ((donateCore s now sender rid amt).rounds
        rid).encryptedCommunityTotal = s.fhe.nextHandle + 1 := by
      rw [donateCore_rounds, if_pos rfl]
    refine ⟨?_, ?_, ?_⟩
    · show (donateCore s now sender rid amt).fhe.acl
        ((donateCore s now sender rid amt).rounds
          rid).encryptedCommunityTotal thisAddr = true
      rw [hct, donateCore_acl_newTotal]
      simp
    · show (donateCore s now sender rid amt).fhe.acl
        ((donateCore s now sender rid amt).rounds
          rid).encryptedCommunityTotal sender = true
      rw [hct, donateCore_acl_newTotal]
      simp
    · intro d hd
      show (donateCore s now sender rid amt).fhe.acl
        ((donateCore s now sender rid amt).rounds
          rid).encryptedCommunityTotal d.donor = true
      rw [hct, donateCore_acl_newTotal]
      have hmem : d.donor ∈ (s.roundDonations rid).map
          (fun d2 => d2.donor) := List.mem_map_of_mem _ hd
      simp [hmem]
  · intro h
    obtain ⟨hb, hset, hend, rfl⟩ := settleRound_eq_ok.mp h
    have hS := hok rid hb.1 hb.2
    obtain ⟨c1, c2, c3, c4, c5, c6, c7, c8, c9, c10⟩ :=
      settleCore_spec s now rid hwf hvl hS.1.1 hS.2.2
    refine ⟨?_, ?_, ?_, c6⟩
    · exact c5 thisAddr (Or.inl rfl)
    · intro d hd
      exact c5 d.donor (Or.inr (Or.inl (List.mem_map_of_mem _ hd)))
    · intro c hc hact
      refine c5 c.matcher (Or.inr (Or.inr ?_))
      exact List.mem_map_of_mem _ (List.mem_filter.mpr ⟨hc, by simp [hact]⟩)

/-- C3 counterexample: settling a round leaves the stored matching-total
ciphertext with no decrypt grant at all; in particular the contract
itself, which the claim says is always included, cannot decrypt it. -/
theorem matchingTotal_ungranted_counterexample :
    settleRound ng1 1 1 = .ok ng2 ∧
    (ng2.rounds 1).settled = true ∧
    canDecrypt ng2 thisAddr ((ng2.rounds 1).encryptedMatchingTotal) =
      false := by
  refine ⟨rfl, by decide, by decide⟩

/-- C8: commitMatching stores the commitment with two fresh ciphertexts
and grants decrypt rights on both exactly to the committing matcher and
the contract; since every later call (settleRound included) only ever
issues grants on handles it freshly allocates, no other address is ever
granted access to these two ciphertexts by any operation. -/
theorem commitment_privacy (s : ContractState)
    (now sender rid mx tg : Nat) (s2 : ContractState) (hInv : s.Inv)
    (h : commitMatching s now sender rid mx tg = .ok s2) :
    s2.roundMatchingCommitments rid =
      s.roundMatchingCommitments rid ++
        [⟨sender, s.fhe.nextHandle, s.fhe.nextHandle + 1, rid, now, true⟩] ∧
    (∀ a, canDecrypt s2 a s.fhe.nextHandle = true ↔
      (a = sender ∨ a = thisAddr)) ∧
    (∀ a, canDecrypt s2 a (s.fhe.nextHandle + 1) = true ↔
      (a = sender ∨ a = thisAddr)) ∧
    s.fhe.nextHandle < s2.fhe.nextHandle ∧
    s.fhe.nextHandle + 1 < s2.fhe.nextHandle ∧
    (∀ (t : ContractState) (c : Call) (h2 a : Nat), t.Inv →
      h2 < t.fhe.nextHandle →
      canDecrypt (exec t c) a h2 = canDecrypt t a h2) ∧
    (∀ (t : ContractState) (c : Call), t.Inv →
      t.fhe.nextHandle ≤ (exec t c).fhe.nextHandle) := by
  obtain ⟨hwf, hvl, hok, hue, hdg⟩ := hInv
  obtain ⟨hb, hset, hnow, hcm, rfl⟩ := commitMatching_eq_ok.mp h
  refine ⟨?_, ?_, ?_, ?_, ?_, ?_, ?_⟩
  · rw [commitCore_commitments, if_pos rfl]
  · intro a
    show (commitMatchingCore s now sender rid mx tg).fhe.acl
      s.fhe.nextHandle a = true ↔ (a = sender ∨ a = thisAddr)
    rw [commitCore_acl_max]
    by_cases ha : a = sender ∨ a = thisAddr
    · simp [ha]
    · simp [ha, hwf s.fhe.nextHandle (Nat.le_refl _) a]
  · intro a
    show (commitMatchingCore s now sender rid mx tg).fhe.acl
      (s.fhe.nextHandle + 1) a = true ↔ (a = sender ∨ a = thisAddr)
    rw [commitCore_acl_trig]
    by_cases ha : a = sender ∨ a = thisAddr
    · simp [ha]
    · simp [ha, hwf (s.fhe.nextHandle + 1) (by omega) a]
  · rw [commitCore_nextHandle]; omega
  · rw [commitCore_nextHandle]; omega
  · intro t c h2 a hInv2 hh2
    exact exec_acl_frame t c h2 a hInv2 hh2
  · intro t c hInv2
    exact exec_nextHandle_mono t c hInv2

/-- C1 (amended): on a successful settleRound the stored matching total
decrypts to the specified trigger-gated sum reduced modulo 2^64, and the
stored final total decrypts to community total plus matching sum modulo
2^64 (the community total itself is unchanged); for a single active
commitment with trigger T and max M the final total decrypts to
communityTotal + M when T is reached and to communityTotal otherwise,
provided communityTotal + M stays below 2^64. -/
theorem settleRound_totals (s : ContractState) (now rid : Nat)
    (s2 : ContractState) (hInv : s.Inv)
    (h : settleRound s now rid = .ok s2) :
    decrypt s2 ((s2.rounds rid).encryptedMatchingTotal) =
      matchingSumSpec s rid % M64 ∧
    decrypt s2 ((s2.rounds rid).encryptedFinalTotal) =
      (decrypt s ((s.rounds rid).encryptedCommunityTotal) +
        matchingSumSpec s rid) % M64 ∧
    decrypt s2 ((s2.rounds rid).encryptedCommunityTotal) =
      decrypt s ((s.rounds rid).encryptedCommunityTotal) ∧
    (∀ T Mv,
      (s.roundMatchingCommitments rid).map
        (fun c => (c.isActive, decrypt s c.minTrigger,
          decrypt s c.maxMatchingAmount)) = [(true, T, Mv)] →
      decrypt s ((s.rounds rid).encryptedCommunityTotal) + Mv < M64 →
      decrypt s2 ((s2.rounds rid).encryptedFinalTotal) =
        (if T ≤ decrypt s ((s.rounds rid).encryptedCommunityTotal) then
          decrypt s ((s.rounds rid).encryptedCommunityTotal) + Mv
        else decrypt s ((s.rounds rid).encryptedCommunityTotal))) := by
  obtain ⟨hwf, hvl, hok, hue, hdg⟩ := hInv
  obtain ⟨hb, hset, hend, rfl⟩ := settleRound_eq_ok.mp h
  have hS := hok rid hb.1 hb.2
  obtain ⟨c1, c2, c3, c4, c5, c6, c7, c8, c9, c10⟩ :=
    settleCore_spec s now rid hwf hvl hS.1.1 hS.2.2
  have hms : matchingSumSpec s rid =
      matchingContrib s.fhe.val (s.rounds rid).encryptedCommunityTotal
        (s.roundMatchingCommitments rid) := rfl
  have hcv : decrypt s ((s.rounds rid).encryptedCommunityTotal) < M64 :=
    hvl _
  have hfin : decrypt (settleRoundCore s now rid)
      (((settleRoundCore s now rid).rounds rid).encryptedFinalTotal) =
      (decrypt s ((s.rounds rid).encryptedCommunityTotal) +
        matchingSumSpec s rid) % M64 := by
    rw [hms]; exact c2
  refine ⟨?_, hfin, ?_, ?_⟩
  · rw [hms]; exact c1
  · rw [settleCore_community]
    exact c3 _ hS.1.1
  · intro T Mv hmap hovf
    cases hl : s.roundMatchingCommitments rid with
    | nil => rw [hl] at hmap; simp at hmap
    | cons c rest =>
      rw [hl, List.map_cons] at hmap
      injection hmap with hhd htl
      have hrest : rest = [] := List.map_eq_nil.mp htl
      simp only [Prod.mk.injEq] at hhd
      obtain ⟨hact, hT, hM⟩ := hhd
      have hsum : matchingSumSpec s rid =
          if T ≤ decrypt s ((s.rounds rid).encryptedCommunityTotal) then Mv
          else 0 := by
        rw [hms, hl, hrest, matchingContrib_cons, matchingContrib_nil,
          if_pos hact]
        rw [show s.fhe.val c.minTrigger = T from hT,
          show s.fhe.val c.maxMatchingAmount = Mv from hM]
        rw [Nat.add_zero]
        rfl
      rw [hfin, hsum]
      by_cases hq : T ≤ decrypt s ((s.rounds rid).encryptedCommunityTotal)
      · rw [if_pos hq, if_pos hq, Nat.mod_eq_of_lt hovf]
      · rw [if_neg hq, if_neg hq, Nat.add_zero, Nat.mod_eq_of_lt hcv]

/-- C1 counterexample: a reachable round whose community total decrypts to
2^64 - 1 with a single active commitment of trigger 0 and max 1; the
trigger is met, the claimed final total is 2^64, but the stored final
total decrypts to 0 because the homomorphic 64-bit addition wraps. -/
theorem settle_overflow_counterexample :
    settleRound ov3 1 1 = .ok ov4 ∧
    decrypt ov3 ((ov3.rounds 1).encryptedCommunityTotal) = M64 - 1 ∧
    (ov3.roundMatchingCommitments 1).map
      (fun c => (c.isActive, decrypt ov3 c.minTrigger,
        decrypt ov3 c.maxMatchingAmount)) = [(true, 0, 1)] ∧
    decrypt ov4 ((ov4.rounds 1).encryptedFinalTotal) = 0 ∧
    (M64 - 1) + 1 ≠ 0 := by
  refine ⟨rfl, by decide, by decide, by decide, by decide⟩

/-- Folding donate over a list of distinct fresh donors succeeds, keeps the
round open, appends one donation per donor, and accumulates the amounts
into the community total modulo 2^64. -/
theorem donateSeq_general (now rid : Nat) (ds : List (Nat × Nat)) :
    ∀ s : ContractState, s.Inv → 0 < rid → rid ≤ s.roundCounter →
      (s.rounds rid).settled = false → now < (s.rounds rid).endTime →
      (ds.map Prod.fst).Nodup →
      (∀ p ∈ ds, s.hasDonated rid p.1 = false) →
      (∀ p ∈ ds, p.2 < M64) →
      ∃ s2, donateSeq s now rid ds = .ok s2 ∧ s2.Inv ∧
        s2.roundCounter = s.roundCounter ∧
        (s2.rounds rid).settled = false ∧
        (s2.rounds rid).endTime = (s.rounds rid).endTime ∧
        (s2.roundDonations rid).length =
          (s.roundDonations rid).length + ds.length ∧
        decrypt s2 ((s2.rounds rid).encryptedCommunityTotal) =
          (decrypt s ((s.rounds rid).encryptedCommunityTotal) +
            (ds.map Prod.snd).sum) % M64 := by
  induction ds with
  | nil =>
    intro s hInv h1 h2 h3 h4 hnd hfr hlt
    refine ⟨s, rfl, hInv, rfl, h3, rfl, by simp, ?_⟩
    rw [List.map_nil, List.sum_nil, Nat.add_zero]
    exact (Nat.mod_eq_of_lt (hInv.2.1 _)).symm
  | cons p rest ih =>
    intro s hInv h1 h2 h3 h4 hnd hfr hlt
    have hdon : s.hasDonated rid p.1 = false := hfr p (by simp)
    have hok : donate s now p.1 rid p.2 =
        .ok (donateCore s now p.1 rid p.2) :=
      donate_eq_ok.mpr ⟨⟨h1, h2⟩, h3, h4, hdon, rfl⟩
    have hInv1 : (donateCore s now p.1 rid p.2).Inv :=
      donateCore_Inv s now p.1 rid p.2 hInv h1 h2
    have hset1 : ((donateCore s now p.1 rid p.2).rounds rid).settled =
        false := by
      rw [donateCore_rounds, if_pos rfl]; exact h3
    have hend1 : ((donateCore s now p.1 rid p.2).rounds rid).endTime =
        (s.rounds rid).endTime := by
      rw [donateCore_rounds, if_pos rfl]
    have hnd1 : (rest.map Prod.fst).Nodup :=
      (List.nodup_cons.mp (by simpa using hnd)).2
    have hnotin : p.1 ∉ rest.map Prod.fst :=
      (List.nodup_cons.mp (by simpa using hnd)).1
    have hfr1 : ∀ q ∈ rest,
        (donateCore s now p.1 rid p.2).hasDonated rid q.1 = false := by
      intro q hq
      rw [donateCore_hasDonated]
      have hne : ¬(rid = rid ∧ q.1 = p.1) := by
        rintro ⟨-, he⟩
        exact hnotin (he ▸ List.mem_map_of_mem Prod.fst hq)
      rw [if_neg hne]
      exact hfr q (by simp [hq])
    have ihs := ih (donateCore s now p.1 rid p.2) hInv1 h1 h2 hset1
      (hend1 ▸ h4) hnd1 hfr1 (fun q hq => hlt q (by simp [hq]))
    obtain ⟨s2, e1, e2, e3, e4, e5, e6, e7⟩ := ihs
    have hcomm : (s.rounds rid).encryptedCommunityTotal ≠
        s.fhe.nextHandle :=
      Nat.ne_of_lt (hInv.2.2.1 rid h1 h2).1.1
    have hval1 : decrypt (donateCore s now p.1 rid p.2)
        (((donateCore s now p.1 rid p.2).rounds rid).encryptedCommunityTotal) =
        (decrypt s ((s.rounds rid).encryptedCommunityTotal) +
          p.2 % M64) % M64 := by
      show (donateCore s now p.1 rid p.2).fhe.val
        ((donateCore s now p.1 rid p.2).rounds rid).encryptedCommunityTotal =
        _
      rw [donateCore_rounds, if_pos rfl]
      exact donateCore_val_newTotal s now p.1 rid p.2 hcomm
    refine ⟨s2, ?_, e2, e3, e4, by rw [e5, hend1], ?_, ?_⟩
    · show donateSeq s now rid (p :: rest) = .ok s2
      rw [donateSeq, hok]
      exact e1
    · rw [e6, donateCore_donations, if_pos rfl]
      simp
      omega
    · rw [e7, hval1, List.map_cons, List.sum_cons,
        Nat.mod_eq_of_lt (hlt p (by simp)), Nat.mod_add_mod,
        Nat.add_assoc]

/-- C6: a sequence of k donations by k pairwise distinct fresh donors to an
open round yields donationCount k, and the community total decrypts to the
exact plaintext sum when that sum stays within the 64-bit range. -/
theorem donate_sequence_exact_sum (s : ContractState) (now rid : Nat)
    (ds : List (Nat × Nat)) (hInv : s.Inv)
    (h1 : 0 < rid) (h2 : rid ≤ s.roundCounter)
    (h3 : (s.rounds rid).settled = false)
    (h4 : now < (s.rounds rid).endTime)
    (hnd : (ds.map Prod.fst).Nodup)
    (hfr : ∀ p ∈ ds, s.hasDonated rid p.1 = false)
    (hempty : s.roundDonations rid = [])
    (hzero : decrypt s ((s.rounds rid).encryptedCommunityTotal) = 0)
    (hsum : (ds.map Prod.snd).sum ≤ M64 - 1) :
    ∃ s2, donateSeq s now rid ds = .ok s2 ∧
      getDonationCount s2 rid = .ok ds.length ∧
      decrypt s2 ((s2.rounds rid).encryptedCommunityTotal) =
        (ds.map Prod.snd).sum := by
  have hm : 0 < M64 := M64_pos
  have hlt : ∀ p ∈ ds, p.2 < M64 := by
    intro p hp
    have hle : p.2 ≤ (ds.map Prod.snd).sum :=
      List.single_le_sum (fun x _ => Nat.zero_le x) p.2
        (List.mem_map_of_mem Prod.snd hp)
    omega
  obtain ⟨s2, e1, e2, e3, e4, e5, e6, e7⟩ :=
    donateSeq_general now rid ds s hInv h1 h2 h3 h4 hnd hfr hlt
  refine ⟨s2, e1, ?_, ?_⟩
  · have hb2 : 0 < rid ∧ rid ≤ s2.roundCounter := ⟨h1, by omega⟩
    simp [getDonationCount, hb2]
    rw [e6, hempty]
    simp
  · rw [e7, hzero, Nat.zero_add, Nat.mod_eq_of_lt (by omega)]

/-- Witness for C1 at the concrete scenario: donations 5 and 7, one
commitment max 50 trigger 9; the trigger is met and the settled final
total decrypts to 62 while the matching total decrypts to 50. -/
theorem settleRound_totals_witness :
    decrypt w5 ((w5.rounds 1).encryptedFinalTotal) = 62 ∧
    decrypt w5 ((w5.rounds 1).encryptedMatchingTotal) = 50 := by
  have hw1 : w1.Inv :=
    Inv_exec initState (.createRound 0 "alpha" "community round" 100)
      initState_Inv
  have hw2 : w2.Inv := Inv_exec w1 (.donate 1 10 1 5) hw1
  have hw3 : w3.Inv := Inv_exec w2 (.donate 2 11 1 7) hw2
  have hw4 : w4.Inv := Inv_exec w3 (.commitMatching 3 20 1 50 9) hw3
  have h := settleRound_totals w4 100 1 w5 hw4 rfl
  constructor
  · rw [h.2.1]; decide
  · rw [h.1]; decide

/-- Witness for C2 at the concrete scenario: after the second donation the
contract, the new donor 11 and the prior donor 10 can all decrypt the
current community total of round 1. -/
theorem donate_regrants_all_donors_witness :
    canDecrypt w3 thisAddr ((w3.rounds 1).encryptedCommunityTotal) = true ∧
    canDecrypt w3 11 ((w3.rounds 1).encryptedCommunityTotal) = true ∧
    canDecrypt w3 10 ((w3.rounds 1).encryptedCommunityTotal) = true := by
  have h := donate_regrants_all_donors w2 2 11 1 7 w3 rfl
  exact ⟨h.1, h.2.1, h.2.2.1 ⟨10, 4, 1, 1⟩ (by decide)⟩

/-- Witness for C3 at the concrete scenario: donate re-grants the contract
on the new community total; settleRound grants the contract, donor 10 and
matcher 20 on the final total, while the stored matching total carries no
grant even for the contract. -/
theorem regrant_discipline_on_update_witness :
    canDecrypt w3 thisAddr ((w3.rounds 1).encryptedCommunityTotal) = true ∧
    canDecrypt w5 thisAddr ((w5.rounds 1).encryptedFinalTotal) = true ∧
    canDecrypt w5 10 ((w5.rounds 1).encryptedFinalTotal) = true ∧
    canDecrypt w5 20 ((w5.rounds 1).encryptedFinalTotal) = true ∧
    canDecrypt w5 thisAddr ((w5.rounds 1).encryptedMatchingTotal) =
      false := by
  have hw1 : w1.Inv :=
    Inv_exec initState (.createRound 0 "alpha" "community round" 100)
      initState_Inv
  have hw2 : w2.Inv := Inv_exec w1 (.donate 1 10 1 5) hw1
  have hw3 : w3.Inv := Inv_exec w2 (.donate 2 11 1 7) hw2
  have hw4 : w4.Inv := Inv_exec w3 (.commitMatching 3 20 1 50 9) hw3
  have hd := (regrant_discipline_on_update w2 2 11 1 7 w3 w3 hw2).1 rfl
  have hs := (regrant_discipline_on_update w4 100 20 1 0 w4 w5 hw4).2 rfl
  refine ⟨hd.1, hs.1, ?_, ?_, hs.2.2.2 thisAddr⟩
  · exact hs.2.1 ⟨10, 4, 1, 1⟩ (by decide)
  · exact hs.2.2.1 ⟨20, 8, 9, 1, 3, true⟩ (by decide) rfl

/-- Witness for C4 at concrete inputs hitting each precondition failure in
turn, plus the absence of any state change on failure. -/
theorem donate_precondition_order_witness :
    donate w2 1 12 2 5 = .error .NotFound ∧
    donate w5 200 12 1 5 = .error .AlreadySettled ∧
    donate w4 100 12 1 5 = .error .RoundEnded ∧
    donate w2 3 10 1 5 = .error .DuplicateDonation ∧
    exec w2 (.donate 3 10 1 5) = w2 := by
  refine ⟨(donate_precondition_order w2 1 12 2 5).1 (by decide),
    (donate_precondition_order w5 200 12 1 5).2.1 (by decide) (by decide),
    (donate_precondition_order w4 100 12 1 5).2.2.1 (by decide) (by decide)
      (by decide),
    (donate_precondition_order w2 3 10 1 5).2.2.2.1 (by decide) (by decide)
      (by decide) (by decide),
    (donate_precondition_order w2 3 10 1 5).2.2.2.2 .DuplicateDonation ?_⟩
  exact (donate_precondition_order w2 3 10 1 5).2.2.2.1 (by decide)
    (by decide) (by decide) (by decide)

/-- Witness for C5 at the concrete scenario: settlement fails before the
end time, succeeds at it, is rejected with no state change afterwards, and
the settled flag survives a subsequent call. -/
theorem settleRound_lifecycle_witness :
    settleRound w4 50 1 = .error .RoundNotEnded ∧
    settleRound w4 100 1 = .ok (settleRoundCore w4 100 1) ∧
    ((settleRoundCore w4 100 1).rounds 1).settled = true ∧
    settleRound w5 200 1 = .error .AlreadySettled ∧
    exec w5 (.settleRound 200 1) = w5 ∧
    ((exec w5 (.donate 300 12 1 5)).rounds 1).settled = true := by
  have t1 := (settleRound_lifecycle w4 50 1).1 (by decide) (by decide)
    (by decide)
  have t2 := (settleRound_lifecycle w4 100 1).2.1 (by decide) (by decide)
    (by decide)
  have t3 := (settleRound_lifecycle w5 200 1).2.2.1 (by decide) (by decide)
  have t4 := (settleRound_lifecycle w5 200 1).2.2.2.2
    (.donate 300 12 1 5) (by decide) (by decide)
  exact ⟨t1, t2.1, t2.2, t3.1, t3.2, t4⟩

/-- Witness for C6 at the concrete scenario: donors 10 and 11 donate 5 and
7 to the fresh round; the count is 2 and the total decrypts to exactly 12. -/
theorem donate_sequence_exact_sum_witness :
    ∃ s2, donateSeq w1 1 1 [(10, 5), (11, 7)] = .ok s2 ∧
      getDonationCount s2 1 = .ok 2 ∧
      decrypt s2 ((s2.rounds 1).encryptedCommunityTotal) = 12 := by
  have hw1 : w1.Inv :=
    Inv_exec initState (.createRound 0 "alpha" "community round" 100)
      initState_Inv
  obtain ⟨s2, e1, e2, e3⟩ := donate_sequence_exact_sum w1 1 1
    [(10, 5), (11, 7)] hw1 (by decide) (by decide) (by decide) (by decide)
    (by decide) (by decide) (by decide) (by decide) (by decide)
  exact ⟨s2, e1, e2, e3⟩

/-- Witness for C7 at concrete inputs: the empty name is rejected, and a
valid call allocates round 1 with the specified fields and zero totals. -/
theorem createRound_behavior_witness :
    createRound initState 0 "" "d" 5 = .error .InvalidArgument ∧
    createRound initState 0 "alpha" "community round" 100 =
      .ok (createRoundCore initState 0 "alpha" "community round" 100) ∧
    (createRoundCore initState 0 "alpha" "community round" 100).roundCounter
      = 1 ∧
    decrypt (createRoundCore initState 0 "alpha" "community round" 100)
      1 = 0 := by
  have t1 := (createRound_behavior initState 0 "" "d" 5).1
    (Or.inl (by decide))
  have t2 := (createRound_behavior initState 0 "alpha" "community round"
    100).2 (by decide) (by decide)
  exact ⟨t1.1, t2.1, t2.2.1, t2.2.2.2.1⟩

/-- Witness for C8 at the concrete scenario: the commitment of matcher 20
stores fresh handles 8 and 9, granted exactly to the matcher and the
contract; donor 11 for instance holds no grant on them. -/
theorem commitment_privacy_witness :
    w4.roundMatchingCommitments 1 =
      w3.roundMatchingCommitments 1 ++ [⟨20, 8, 9, 1, 3, true⟩] ∧
    canDecrypt w4 20 8 = true ∧
    canDecrypt w4 thisAddr 9 = true ∧
    canDecrypt w4 11 8 = false := by
  have hw1 : w1.Inv :=
    Inv_exec initState (.createRound 0 "alpha" "community round" 100)
      initState_Inv
  have hw2 : w2.Inv := Inv_exec w1 (.donate 1 10 1 5) hw1
  have hw3 : w3.Inv := Inv_exec w2 (.donate 2 11 1 7) hw2
  have h := commitment_privacy w3 3 20 1 50 9 w4 hw3 rfl
  refine ⟨h.1, (h.2.1 20).mpr (Or.inl rfl),
    (h.2.2.1 thisAddr).mpr (Or.inr rfl), ?_⟩
  cases hb : canDecrypt w4 11 8 with
  | false => rfl
  | true => exact absurd ((h.2.1 11).mp hb) (by decide)

/-- Witness for C9 at the concrete scenario: ids 0 and 2 are rejected with
NotFound, id 1 is served by all three readers. -/
theorem readers_bounds_check_witness :
    getRound w1 0 = .error .NotFound ∧
    getDonationCount w1 2 = .error .NotFound ∧
    getRound w1 1 = .ok (w1.rounds 1) ∧
    getDonationCount w1 1 = .ok 0 ∧
    getMatchingCommitmentCount w1 1 = .ok 0 := by
  have t1 := (readers_bounds_check w1 0).1 (by decide)
  have t2 := (readers_bounds_check w1 2).1 (by decide)
  have t3 := (readers_bounds_check w1 1).2 (by decide)
  exact ⟨t1.1, t2.2.1, t3.1, t3.2.1, t3.2.2⟩

/-- Witness for C10 at the concrete scenario: the first donation stores
amount handle 4, and donor 10 can decrypt it, obtaining the plaintext 5. -/
theorem donate_grants_own_amount_witness :
    w2.roundDonations 1 = [⟨10, 4, 1, 1⟩] ∧
    canDecrypt w2 10 4 = true ∧
    decrypt w2 4 = 5 := by
  have h := donate_grants_own_amount w1 1 10 1 5 w2 rfl
  exact ⟨h.1, h.2.1, h.2.2.1⟩

end DonationMatching
